import Mathlib

/-!
Shallow embedding of the criteria allocation optimizer of `database.py`
(carbon-credit inventory and trade management).

The embedded functions are `check_inventory_matches_criteria`,
`get_available_after_criteria_claims`, `get_criteria_allocation_status`,
`update_criteria_quantity`, `update_specific_criteria_quantity` and
`restore_criteria_on_unassign`.  SQL tables become Lean lists of records,
Python dicts become association lists that preserve insertion order,
Python sets become `Finset`s, and Python integers become `Int`.
The `ORDER BY` clauses of the source's SQL queries are modelled by
`List.insertionSort` on the corresponding keys; the criteria list argument
of each simulation function stands for the result of the source's
`SELECT ... ORDER BY created_at ASC` query, i.e. it is given in FIFO
creation order.
-/

/-- Python string comparison (`str(a) < str(b)`): lexicographic by code
point, which is also SQLite's BINARY collation used by the `ORDER BY` and
vintage-range comparisons in the source. -/
def pyStrLt (a b : String) : Prop := a.data < b.data

/-- Python `a <= b` on strings, lexicographic by code point. -/
def pyStrLe (a b : String) : Prop := a.data ≤ b.data

instance : DecidableRel pyStrLt := fun a b => by unfold pyStrLt; infer_instance

instance : DecidableRel pyStrLe := fun a b => by unfold pyStrLe; infer_instance

/-- One row of the `inventory` table, restricted to the columns the
allocator reads.  A SQL `NULL` in a text column is modelled as `""`
(the source only ever tests these values for Python truthiness or
equality with a non-empty string, for which `None` and `""` agree), and
a `NULL` flag column is modelled as `false` (the source's
`is_reserved = 0 OR is_reserved IS NULL` tests). -/
structure Item where
  id : Nat
  market : String
  registry : String
  product : String
  project_id : String
  project_type : String
  protocol : String
  vintage : String
  serial : String
  is_reserved : Bool
  is_assigned : Bool
deriving Repr, DecidableEq

/-- One row of the `trade_criteria` table, restricted to the columns the
allocator reads.  `id` is the `INTEGER PRIMARY KEY` rowid; metadata
columns (`created_by`, `created_at`, `quantity_fulfilled`, timestamps)
that no embedded function branches on are omitted. -/
structure Crit where
  id : Nat
  trade_id : String
  direction : String
  quantity_required : Int
  status : String
  market : String
  registry : String
  product : String
  project_type : String
  protocol : String
  project_id : String
  vintage_from : String
  vintage_to : String
deriving Repr, DecidableEq

/-- `check_inventory_matches_criteria(item, criteria)`: the sequence of
guard clauses of the source, one `if` per filter field.  A criteria field
is "set" when Python-truthy, i.e. a non-empty string. -/
def check_inventory_matches_criteria (item : Item) (crit : Crit) : Bool :=
  if crit.market ≠ "" ∧ item.market ≠ crit.market then false
  else if crit.registry ≠ "" ∧ item.registry ≠ crit.registry then false
  else if crit.product ≠ "" ∧ item.product ≠ crit.product then false
  else if crit.project_type ≠ "" ∧ item.project_type ≠ crit.project_type then false
  else if crit.protocol ≠ "" ∧ item.protocol ≠ crit.protocol then false
  else if crit.project_id ≠ "" ∧ item.project_id ≠ crit.project_id then false
  else if crit.vintage_from ≠ "" ∧ item.vintage ≠ "" ∧ pyStrLt item.vintage crit.vintage_from then false
  else if crit.vintage_to ≠ "" ∧ item.vintage ≠ "" ∧ pyStrLt crit.vintage_to item.vintage then false
  else true

/-- The matcher contract as the specification words it (§4.1): every set
scalar field must be exactly equal, and a unit with a non-empty vintage
must lie inside whichever vintage bounds are set. -/
def matchesRef (item : Item) (crit : Crit) : Prop :=
  (crit.market ≠ "" → item.market = crit.market) ∧
  (crit.registry ≠ "" → item.registry = crit.registry) ∧
  (crit.product ≠ "" → item.product = crit.product) ∧
  (crit.project_type ≠ "" → item.project_type = crit.project_type) ∧
  (crit.protocol ≠ "" → item.protocol = crit.protocol) ∧
  (crit.project_id ≠ "" → item.project_id = crit.project_id) ∧
  (crit.vintage_from ≠ "" → item.vintage ≠ "" → pyStrLe crit.vintage_from item.vintage) ∧
  (crit.vintage_to ≠ "" → item.vintage ≠ "" → pyStrLe item.vintage crit.vintage_to)

lemma pyStrLt_not_iff (a b : String) : ¬ pyStrLt a b ↔ pyStrLe b a := by
  unfold pyStrLt pyStrLe
  exact not_lt

/-- A criteria record with every filter field unset; used to build
concrete test inputs. -/
def blankCrit : Crit :=
  { id := 0, trade_id := "", direction := "sell", quantity_required := 0,
    status := "criteria_only", market := "", registry := "", product := "",
    project_type := "", protocol := "", project_id := "",
    vintage_from := "", vintage_to := "" }

/-- An inventory unit with every descriptive attribute empty; used to
build concrete test inputs. -/
def blankItem : Item :=
  { id := 0, market := "", registry := "", product := "", project_id := "",
    project_type := "", protocol := "", vintage := "", serial := "",
    is_reserved := false, is_assigned := false }

/-- C5.  `check_inventory_matches_criteria` returns `true` iff every set
scalar filter field is exactly equal on the unit and, for a unit with a
non-empty vintage, the vintage lies (lexically) within the set bounds. -/
theorem c5_matcher_reference_semantics (item : Item) (crit : Crit) :
    check_inventory_matches_criteria item crit = true ↔ matchesRef item crit := by
  unfold check_inventory_matches_criteria matchesRef
  split_ifs with h1 h2 h3 h4 h5 h6 h7 h8
  all_goals simp only [false_iff, true_iff]
  · rintro ⟨k, -⟩; exact absurd (k h1.1) h1.2
  · rintro ⟨-, k, -⟩; exact absurd (k h2.1) h2.2
  · rintro ⟨-, -, k, -⟩; exact absurd (k h3.1) h3.2
  · rintro ⟨-, -, -, k, -⟩; exact absurd (k h4.1) h4.2
  · rintro ⟨-, -, -, -, k, -⟩; exact absurd (k h5.1) h5.2
  · rintro ⟨-, -, -, -, -, k, -⟩; exact absurd (k h6.1) h6.2
  · rintro ⟨-, -, -, -, -, -, k, -⟩
    exact ((pyStrLt_not_iff _ _).mpr (k h7.1 h7.2.1)) h7.2.2
  · rintro ⟨-, -, -, -, -, -, -, k⟩
    exact ((pyStrLt_not_iff _ _).mpr (k h8.1 h8.2.1)) h8.2.2
  · push_neg at h1 h2 h3 h4 h5 h6 h7 h8
    refine ⟨h1, h2, h3, h4, h5, h6, ?_, ?_⟩
    · intro hf hv; exact (pyStrLt_not_iff _ _).mp (h7 hf hv)
    · intro ht hv; exact (pyStrLt_not_iff _ _).mp (h8 ht hv)

/-- C4 counterexample input: a unit with an empty vintage against a
filter that sets only `vintage_from`. -/
def c4CounterCrit : Crit := { blankCrit with vintage_from := "2021" }

/-- C4 counterexample.  The claim predicts that a unit with an empty
vintage does NOT match a filter specifying only part of the vintage
range; the source skips the vintage comparison for an empty vintage, so
the unit matches. -/
theorem c4_counterexample :
    check_inventory_matches_criteria blankItem c4CounterCrit = true ∧
    blankItem.vintage = "" ∧ c4CounterCrit.vintage_from ≠ "" ∧
    c4CounterCrit.vintage_to = "" := by
  refine ⟨by decide, rfl, by decide, rfl⟩

/-- C4 amended.  A unit with an empty or missing vintage is treated as
matching regardless of the filter's vintage bounds (the range comparison
is skipped entirely), so its match result equals the result for the same
filter with both vintage bounds unset; in particular it trivially
satisfies a filter whose vintage range is entirely unset. -/
theorem c4_empty_vintage_skips_range (item : Item) (crit : Crit)
    (hv : item.vintage = "") :
    check_inventory_matches_criteria item crit =
      check_inventory_matches_criteria item
        { crit with vintage_from := "", vintage_to := "" } := by
  unfold check_inventory_matches_criteria
  simp only [hv]
  simp

/-- C4 amended, witness at a concrete input. -/
theorem c4_empty_vintage_skips_range_witness :
    blankItem.vintage = "" ∧
    check_inventory_matches_criteria blankItem c4CounterCrit =
      check_inventory_matches_criteria blankItem
        { c4CounterCrit with vintage_from := "", vintage_to := "" } :=
  ⟨rfl, c4_empty_vintage_skips_range blankItem c4CounterCrit rfl⟩

/-- Python dict lookup `m.get(k)` on an insertion-ordered association
list (the model of a Python dict). -/
def dictGet? {K V : Type} [DecidableEq K] : List (K × V) → K → Option V
  | [], _ => none
  | p :: rest, k => if p.1 = k then some p.2 else dictGet? rest k

/-- Python dict assignment `m[k] = v`: replace in place when the key is
present, append otherwise. -/
def dictInsert {K V : Type} [DecidableEq K] : List (K × V) → K → V → List (K × V)
  | [], k, v => [(k, v)]
  | p :: rest, k, v => if p.1 = k then (k, v) :: rest else p :: dictInsert rest k v

/-- In-place mutation `f` of the value stored under an existing key
(`m[k]['field'] = ...` in the source); leaves the list unchanged when the
key is absent (the source only performs this on keys it just inserted). -/
def dictUpd {K V : Type} [DecidableEq K] : List (K × V) → K → (V → V) → List (K × V)
  | [], _, _ => []
  | p :: rest, k, f => if p.1 = k then (p.1, f p.2) :: rest else p :: dictUpd rest k f

/-- The caller-supplied `search_criteria` dict of
`get_available_after_criteria_claims` (`""` = field unset; the source
never reads a `market` key from it). -/
structure SearchCriteria where
  registry : String
  product : String
  project_type : String
  protocol : String
  project_id : String
  vintage_from : String
  vintage_to : String
deriving Repr, DecidableEq

/-- A search with no field set. -/
def blankSearch : SearchCriteria :=
  { registry := "", product := "", project_type := "", protocol := "",
    project_id := "", vintage_from := "", vintage_to := "" }

/-- The `WHERE` clause of the inventory query in
`get_available_after_criteria_claims`: unreserved, unassigned, and the
dynamically appended equality / vintage-range conditions. -/
def sqlWhere (sc : SearchCriteria) (it : Item) : Bool :=
  !it.is_reserved && !it.is_assigned &&
  (sc.registry == "" || it.registry == sc.registry) &&
  (sc.product == "" || it.product == sc.product) &&
  (sc.project_type == "" || it.project_type == sc.project_type) &&
  (sc.protocol == "" || it.protocol == sc.protocol) &&
  (sc.project_id == "" || it.project_id == sc.project_id) &&
  (sc.vintage_from == "" || decide (pyStrLe sc.vintage_from it.vintage)) &&
  (sc.vintage_to == "" || decide (pyStrLe it.vintage sc.vintage_to))

/-- The `ORDER BY vintage, serial` sort key of the same query. -/
def invOrder (a b : Item) : Prop :=
  pyStrLt a.vintage b.vintage ∨ (a.vintage = b.vintage ∧ pyStrLe a.serial b.serial)

instance : DecidableRel invOrder := fun a b => by unfold invOrder; infer_instance

/-- `ORDER BY vintage, serial` on the inventory rows. -/
def sortInventory (l : List Item) : List Item := List.insertionSort invOrder l

/-- One element of the `criteria_claims` list returned by
`get_available_after_criteria_claims`. -/
structure ClaimEntry where
  trade_id : String
  criteria_id : Nat
  quantity_claimed : Int
  registry : String
  vintage_from : String
  vintage_to : String
deriving Repr, DecidableEq

/-- One element of the `inventory_items` display list. -/
structure InvLine where
  serial : String
  registry : String
  product : String
  project_id : String
  vintage : String
  status : String
  claimed_by_trade : Option String
deriving Repr, DecidableEq

/-- The dict returned by `get_available_after_criteria_claims`.  The
`inventory_items` and `error` keys are absent (`none`) on some return
paths of the source. -/
structure ClaimsResult where
  total_matching : Nat
  claimed_by_criteria : Nat
  available : Int
  criteria_claims : List ClaimEntry
  inventory_items : Option (List InvLine)
  error : Option String
deriving Repr, DecidableEq

/-- Working state of the FIFO simulation loop of
`get_available_after_criteria_claims`. -/
structure ClaimsState where
  allocated_ids : Finset Nat
  item_claims : List (Nat × String)
  criteria_claims : List ClaimEntry

/-- Loop body of the FIFO simulation in
`get_available_after_criteria_claims`: one criteria claims up to its
required quantity from the first not-yet-allocated matching units. -/
def claimsStep (matching_inventory : List Item) (st : ClaimsState) (crit : Crit) :
    ClaimsState :=
  let matching_for_crit :=
    ((matching_inventory.filter fun item =>
        decide (item.id ∉ st.allocated_ids) &&
          check_inventory_matches_criteria item crit).map (·.id))
  let qty_to_claim : Int := min crit.quantity_required (matching_for_crit.length : Int)
  if 0 < qty_to_claim then
    let taken := matching_for_crit.take qty_to_claim.toNat
    { allocated_ids := st.allocated_ids ∪ taken.toFinset,
      item_claims := taken.foldl (fun m i => dictInsert m i crit.trade_id) st.item_claims,
      criteria_claims := st.criteria_claims ++
        [{ trade_id := crit.trade_id, criteria_id := crit.id,
           quantity_claimed := qty_to_claim, registry := crit.registry,
           vintage_from := crit.vintage_from, vintage_to := crit.vintage_to }] }
  else st

/-- Python truthiness of a `dict.get` result used for the per-unit
status display (`'claimed' if claiming_trade else 'available'`). -/
def optTruthy : Option String → Bool
  | none => false
  | some s => !s.isEmpty

/-- The success path of `get_available_after_criteria_claims`.
`inventory` stands for the full `inventory` table, `all_criteria` for the
result of `SELECT ... WHERE status = 'criteria_only' AND direction =
'sell' ORDER BY created_at ASC`, i.e. the active sell criteria in FIFO
creation order. -/
def claimsCore (inventory : List Item) (all_criteria : List Crit)
    (sc : SearchCriteria) : ClaimsResult :=
  let matching_inventory := sortInventory (inventory.filter (sqlWhere sc))
  let total_matching := matching_inventory.length
  if total_matching = 0 then
    { total_matching := 0, claimed_by_criteria := 0, available := 0,
      criteria_claims := [], inventory_items := none, error := none }
  else if all_criteria.isEmpty then
    { total_matching := total_matching, claimed_by_criteria := 0,
      available := (total_matching : Int), criteria_claims := [],
      inventory_items := none, error := none }
  else
    let fin := all_criteria.foldl (claimsStep matching_inventory)
      { allocated_ids := ∅, item_claims := [], criteria_claims := [] }
    let claimed := fin.allocated_ids.card
    { total_matching := total_matching,
      claimed_by_criteria := claimed,
      available := (total_matching : Int) - (claimed : Int),
      criteria_claims := fin.criteria_claims,
      inventory_items := some (matching_inventory.map fun item =>
        let claiming_trade := dictGet? fin.item_claims item.id
        { serial := item.serial, registry := item.registry,
          product := item.product, project_id := item.project_id,
          vintage := item.vintage,
          status := if optTruthy claiming_trade then "claimed" else "available",
          claimed_by_trade := claiming_trade }),
      error := none }

/-- `get_available_after_criteria_claims` with its surrounding
`try/except`: a store-layer failure is caught and turned into the
zero/empty result with an added `error` entry. -/
def get_available_after_criteria_claims
    (store : Except String (List Item × List Crit)) (sc : SearchCriteria) :
    ClaimsResult :=
  match store with
  | .error e =>
    { total_matching := 0, claimed_by_criteria := 0, available := 0,
      criteria_claims := [], inventory_items := none, error := some e }
  | .ok (inventory, all_criteria) => claimsCore inventory all_criteria sc

/-- The `criteria` sub-dict echoed into each `criteria_status` entry. -/
structure CritEcho where
  market : String
  registry : String
  product : String
  project_type : String
  protocol : String
  project_id : String
  vintage_from : String
  vintage_to : String
deriving Repr, DecidableEq

/-- The filter fields of a criteria record, as echoed by the first pass. -/
def critEcho (c : Crit) : CritEcho :=
  { market := c.market, registry := c.registry, product := c.product,
    project_type := c.project_type, protocol := c.protocol,
    project_id := c.project_id, vintage_from := c.vintage_from,
    vintage_to := c.vintage_to }

/-- One value of the `criteria_status` dict of
`get_criteria_allocation_status`; `allocated` is only set during the
second (FIFO) pass. -/
structure CritStatusEntry where
  status : String
  available : Nat
  required : Int
  shortfall : Int
  trade_id : String
  criteria : CritEcho
  allocated : Option Int
deriving Repr, DecidableEq

/-- One value of the `trade_status` dict; `conflicts_with` models the
source's `list(set(...))` as a finite set since Python's set iteration
order is unspecified. -/
structure TradeStatusEntry where
  status : String
  available : Nat
  required : Int
  shortfall : Int
  criteria_ids : List Nat
  conflicts_with : Finset String
deriving DecidableEq

/-- One entry of the pairwise `conflicts` list. -/
structure ConflictEntry where
  trade1 : String
  trade2 : String
  overlap_count : Nat
  combined_need : Int
deriving Repr, DecidableEq

/-- The dict returned by `get_criteria_allocation_status`.  The
`criteria_status`, `allocated_serials` and `error` keys are absent
(`none`) on some return paths; `allocated_serials` models the source's
`list(allocated_serials)` of a set as a finite set. -/
structure AllocResult where
  trade_status : List (String × TradeStatusEntry)
  criteria_status : Option (List (Nat × CritStatusEntry))
  total_available : Nat
  total_required : Int
  conflicts : List ConflictEntry
  allocation_possible : Bool
  allocated_serials : Option (Finset String)
  error : Option String
deriving DecidableEq

/-- The `WHERE (is_reserved = 0 OR NULL) AND (is_assigned = 0 OR NULL)`
inventory query of `get_criteria_allocation_status` (no `ORDER BY`: the
row order of the table is kept). -/
def unflagged (l : List Item) : List Item :=
  l.filter fun it => !it.is_reserved && !it.is_assigned

/-- One assignment `criteria_matches[crit['id']] = [...]` of the
match-matrix construction. -/
def bmStep (available_inventory : List Item) (cm : List (Nat × List Nat))
    (crit : Crit) : List (Nat × List Nat) :=
  dictInsert cm crit.id
    ((available_inventory.filter fun item =>
        check_inventory_matches_criteria item crit).map (·.id))

/-- `criteria_matches[criteria_id] = [ids of matching units]`. -/
def buildMatches (available_inventory : List Item) (all_criteria : List Crit) :
    List (Nat × List Nat) :=
  all_criteria.foldl (bmStep available_inventory) []

/-- Indexing `criteria_matches[cid]` (the key is always present when the
source reads it). -/
def matchesOf (cm : List (Nat × List Nat)) (cid : Nat) : List Nat :=
  (dictGet? cm cid).getD []

/-- Working state of the first (informational) pass. -/
structure Pass1State where
  cs : List (Nat × CritStatusEntry)
  ts : List (String × TradeStatusEntry)

/-- The fresh trade entry created when a trade is first seen. -/
def freshTradeEntry : TradeStatusEntry :=
  { status := "sufficient", available := 0, required := 0, shortfall := 0,
    criteria_ids := [], conflicts_with := ∅ }

/-- Loop body of the first pass: per-criteria independent availability,
aggregated per trade with worst-status propagation
(`insufficient` overrides `sufficient`). -/
def pass1Step (cm : List (Nat × List Nat)) (st : Pass1State) (crit : Crit) :
    Pass1State :=
  let available_for_crit := (matchesOf cm crit.id).length
  let required := crit.quantity_required
  let entry : CritStatusEntry :=
    { status := if (available_for_crit : Int) ≥ required then "sufficient"
        else "insufficient",
      available := available_for_crit, required := required,
      shortfall := max 0 (required - (available_for_crit : Int)),
      trade_id := crit.trade_id, criteria := critEcho crit,
      allocated := none }
  let ts0 := if (dictGet? st.ts crit.trade_id).isSome then st.ts
    else dictInsert st.ts crit.trade_id freshTradeEntry
  let ts1 := dictUpd ts0 crit.trade_id fun t =>
    { t with available := t.available + available_for_crit,
             required := t.required + required,
             shortfall := t.shortfall + max 0 (required - (available_for_crit : Int)),
             criteria_ids := t.criteria_ids ++ [crit.id] }
  let ts2 := if entry.status = "insufficient" then
      dictUpd ts1 crit.trade_id fun t =>
        if t.status = "sufficient" then { t with status := "insufficient" } else t
    else ts1
  { cs := dictInsert st.cs crit.id entry, ts := ts2 }

/-- The `id_to_serial` dict built from the inventory rows (later
duplicate ids overwrite earlier ones, as in a Python dict
comprehension). -/
def idToSerial (available_inventory : List Item) (i : Nat) : Option String :=
  (available_inventory.reverse.find? fun it => decide (it.id = i)).map (·.serial)

/-- Python list slicing `l[:n]`, including the negative-index case. -/
def pySlice {α : Type} (l : List α) (n : Int) : List α :=
  if n < 0 then l.take (l.length - n.natAbs) else l.take n.toNat

/-- Working state of the second (FIFO simulation) pass. -/
structure Pass2State where
  allocation_success : Bool
  allocated : Finset Nat
  allocated_serials : Finset String
  cs : List (Nat × CritStatusEntry)
  ts : List (String × TradeStatusEntry)

/-- Loop body of the FIFO pass: a criteria takes the first
not-yet-allocated units of its match-list; when fewer than required
remain it takes them all, is marked `conflict`, and forces its trade to
`conflict`. -/
def pass2Step (cm : List (Nat × List Nat)) (i2s : Nat → Option String)
    (st : Pass2State) (crit : Crit) : Pass2State :=
  let available_items := (matchesOf cm crit.id).filter fun i =>
    decide (i ∉ st.allocated)
  let required := crit.quantity_required
  if (available_items.length : Int) ≥ required then
    let taken := pySlice available_items required
    { st with
      allocated := st.allocated ∪ taken.toFinset,
      allocated_serials := st.allocated_serials ∪ (taken.filterMap i2s).toFinset,
      cs := dictUpd st.cs crit.id fun e => { e with allocated := some required } }
  else
    { allocation_success := false,
      allocated := st.allocated ∪ available_items.toFinset,
      allocated_serials :=
        st.allocated_serials ∪ (available_items.filterMap i2s).toFinset,
      cs := dictUpd st.cs crit.id fun e =>
        { e with status := "conflict",
                 allocated := some ((available_items.length : Nat) : Int),
                 shortfall := required - (available_items.length : Int) },
      ts := dictUpd st.ts crit.trade_id fun t => { t with status := "conflict" } }

/-- The pairwise conflict test for one ordered pair `(crit1, crit2)`:
an entry is produced when the match-lists overlap and the combined
requirement exceeds the overlap. -/
def pairEntry (cm : List (Nat × List Nat)) (crit1 crit2 : Crit) :
    Option ConflictEntry :=
  let overlap := (matchesOf cm crit1.id).toFinset ∩ (matchesOf cm crit2.id).toFinset
  if overlap.Nonempty then
    let combined_need := crit1.quantity_required + crit2.quantity_required
    if combined_need > (overlap.card : Int) then
      some { trade1 := crit1.trade_id, trade2 := crit2.trade_id,
             overlap_count := overlap.card, combined_need := combined_need }
    else none
  else none

/-- The double loop `for i, crit1 in enumerate(...): for crit2 in
all_criteria[i+1:]`, collecting conflict entries in order. -/
def pairLoop (cm : List (Nat × List Nat)) : List Crit → List ConflictEntry
  | [] => []
  | c :: rest => (rest.filterMap (pairEntry cm c)) ++ pairLoop cm rest

/-- `trade_conflicts.setdefault(k, []).append(v)` as written out in the
source (membership test, optional init, append). -/
def dictAppend (m : List (String × List String)) (k v : String) :
    List (String × List String) :=
  dictUpd (if (dictGet? m k).isSome then m else dictInsert m k []) k
    fun l => l ++ [v]

/-- The `trade_conflicts` dict accumulated while recording conflict
entries: each entry adds each trade to the other's list. -/
def buildTradeConflicts (entries : List ConflictEntry) :
    List (String × List String) :=
  entries.foldl (fun m e => dictAppend (dictAppend m e.trade1 e.trade2) e.trade2 e.trade1) []

/-- The final loop writing `conflicts_with = list(set(...))` into each
existing trade's status. -/
def applyConflictsWith (ts : List (String × TradeStatusEntry))
    (tc : List (String × List String)) : List (String × TradeStatusEntry) :=
  tc.foldl
    (fun acc p =>
      if (dictGet? acc p.1).isSome then
        dictUpd acc p.1 fun t => { t with conflicts_with := p.2.toFinset }
      else acc)
    ts

/-- The success path of `get_criteria_allocation_status`.  `all_criteria`
stands for the `SELECT ... ORDER BY created_at ASC` result (active sell
criteria in FIFO creation order), `inventory` for the full `inventory`
table. -/
def allocationStatusCore (all_criteria : List Crit) (inventory : List Item) :
    AllocResult :=
  let available_inventory := unflagged inventory
  if all_criteria.isEmpty then
    { trade_status := [], criteria_status := none,
      total_available := available_inventory.length, total_required := 0,
      conflicts := [], allocation_possible := true,
      allocated_serials := none, error := none }
  else
    let cm := buildMatches available_inventory all_criteria
    let p1 := all_criteria.foldl (pass1Step cm) { cs := [], ts := [] }
    let p2 := all_criteria.foldl (pass2Step cm (idToSerial available_inventory))
      { allocation_success := true, allocated := ∅, allocated_serials := ∅,
        cs := p1.cs, ts := p1.ts }
    let entries := pairLoop cm all_criteria
    let ts_final := applyConflictsWith p2.ts (buildTradeConflicts entries)
    { trade_status := ts_final,
      criteria_status := some p2.cs,
      total_available := available_inventory.length,
      total_required := (all_criteria.map (·.quantity_required)).sum,
      conflicts := entries,
      allocation_possible := p2.allocation_success,
      allocated_serials := some p2.allocated_serials,
      error := none }

/-- `get_criteria_allocation_status` with its surrounding `try/except`:
a store-layer failure is caught and turned into an empty result with
`allocation_possible = True` and an added `error` entry. -/
def get_criteria_allocation_status
    (store : Except String (List Crit × List Item)) : AllocResult :=
  match store with
  | .error e =>
    { trade_status := [], criteria_status := none, total_available := 0,
      total_required := 0, conflicts := [], allocation_possible := true,
      allocated_serials := none, error := some e }
  | .ok (all_criteria, inventory) => allocationStatusCore all_criteria inventory

/-- `ORDER BY id ASC` on criteria rows. -/
def critIdLe (a b : Crit) : Prop := a.id ≤ b.id

instance : DecidableRel critIdLe := fun a b => by unfold critIdLe; infer_instance

/-- The `WHERE trade_id = ? AND direction = 'sell' AND status =
'criteria_only'` selection of `update_criteria_quantity`. -/
def critRowMatch (trade_id : String) (c : Crit) : Bool :=
  decide (c.trade_id = trade_id) && decide (c.direction = "sell") &&
    decide (c.status = "criteria_only")

/-- Loop body of the negative-delta branch of `update_criteria_quantity`:
one criteria of the trade absorbs up to the remaining amount, the row is
deleted when its quantity reaches zero, updated otherwise. -/
def reduceStep (acc : List Crit × Int) (crit : Crit) : List Crit × Int :=
  if acc.2 ≤ 0 then acc
  else
    let crit_qty := crit.quantity_required
    if 0 < crit_qty then
      let reduce_by := min crit_qty acc.2
      let new_qty := crit_qty - reduce_by
      if new_qty ≤ 0 then
        (acc.1.filter fun x => decide (x.id ≠ crit.id), acc.2 - reduce_by)
      else
        (acc.1.map
          (fun x => if x.id = crit.id then
            { x with quantity_required := new_qty } else x),
         acc.2 - reduce_by)
    else acc

/-- `update_criteria_quantity(trade_id, delta)` acting on the
`trade_criteria` table (`reg`).  Negative `delta` is consumed greedily
across the trade's active criteria in ascending-id order, deleting any
criteria whose quantity reaches zero; non-negative `delta` is added to
the first (lowest-id) criteria.  The audit-log side channel (`username`)
is not modelled. -/
def update_criteria_quantity (reg : List Crit) (trade_id : String) (delta : Int) :
    List Crit :=
  let criteria_list := List.insertionSort critIdLe (reg.filter (critRowMatch trade_id))
  if criteria_list.isEmpty then reg
  else if delta < 0 then
    (criteria_list.foldl reduceStep (reg, -delta)).1
  else
    match criteria_list with
    | [] => reg
    | first :: _ =>
      reg.map fun x => if x.id = first.id then
        { x with quantity_required := first.quantity_required + delta } else x

/-- `update_specific_criteria_quantity(criteria_id, delta)`: adjust one
active criteria's quantity, deleting the row when the new quantity is
not positive. -/
def update_specific_criteria_quantity (reg : List Crit) (criteria_id : Nat)
    (delta : Int) : List Crit :=
  match reg.find? (fun c => decide (c.id = criteria_id) &&
      decide (c.status = "criteria_only")) with
  | none => reg
  | some criteria =>
    let new_qty := criteria.quantity_required + delta
    if new_qty ≤ 0 then reg.filter fun x => decide (x.id ≠ criteria_id)
    else reg.map fun x => if x.id = criteria_id then
      { x with quantity_required := new_qty } else x

/-- The `criteria_snapshot` dict carried on an inventory unit.
`direction` uses `.get('direction', 'sell')` in the source, so an absent
key defaults to `'sell'`. -/
structure CritSnapshot where
  trade_id : String
  direction : Option String
  market : String
  registry : String
  product : String
  project_type : String
  protocol : String
  project_id : String
  vintage_from : String
  vintage_to : String
deriving Repr, DecidableEq

/-- `restore_criteria_on_unassign(criteria_id, quantity, ...,
criteria_snapshot)` acting on the `trade_criteria` table.  `next_id` is
the rowid the store would assign to an inserted row (`lastrowid`).
Returns the new table and the boolean success flag of the source's
`(success, message)` pair; the audit-log side channel is not modelled. -/
def restore_criteria_on_unassign (reg : List Crit) (next_id : Nat)
    (criteria_id : Nat) (quantity : Int) (snap : Option CritSnapshot) :
    List Crit × Bool :=
  match reg.find? (fun c => decide (c.id = criteria_id)) with
  | some criteria =>
    (reg.map fun x => if x.id = criteria_id then
      { x with quantity_required := criteria.quantity_required + quantity } else x,
     true)
  | none =>
    match snap with
    | some s =>
      (reg ++ [{ id := next_id, trade_id := s.trade_id,
                 direction := s.direction.getD "sell",
                 quantity_required := quantity, status := "criteria_only",
                 market := s.market, registry := s.registry,
                 product := s.product, project_type := s.project_type,
                 protocol := s.protocol, project_id := s.project_id,
                 vintage_from := s.vintage_from, vintage_to := s.vintage_to }],
       true)
    | none => (reg, false)

/-!  Association-list (Python dict) lemmas shared by the proofs. -/

lemma dictGet?_insert_self {K V : Type} [DecidableEq K] (m : List (K × V)) (k : K) (v : V) :
    dictGet? (dictInsert m k v) k = some v := by
  induction m with
  | nil => simp [dictGet?, dictInsert]
  | cons p rest ih =>
    by_cases h : p.1 = k
    · simp [dictInsert, dictGet?, h]
    · simp [dictInsert, dictGet?, h, ih]

lemma dictGet?_insert_other {K V : Type} [DecidableEq K] (m : List (K × V))
    (k k' : K) (v : V) (h : k' ≠ k) :
    dictGet? (dictInsert m k v) k' = dictGet? m k' := by
  induction m with
  | nil => simp [dictGet?, dictInsert, Ne.symm h]
  | cons p rest ih =>
    by_cases hp : p.1 = k
    · subst hp
      have hne : p.1 ≠ k' := fun hh => h hh.symm
      simp [dictInsert, dictGet?, hne]
    · simp only [dictInsert, if_neg hp]
      by_cases hp' : p.1 = k'
      · simp [dictGet?, hp']
      · simp [dictGet?, hp', ih]

lemma dictGet?_upd_self {K V : Type} [DecidableEq K] (m : List (K × V)) (k : K)
    (f : V → V) :
    dictGet? (dictUpd m k f) k = (dictGet? m k).map f := by
  induction m with
  | nil => simp [dictGet?, dictUpd]
  | cons p rest ih =>
    by_cases h : p.1 = k
    · simp [dictUpd, dictGet?, h]
    · simp [dictUpd, dictGet?, h, ih]

lemma dictGet?_upd_other {K V : Type} [DecidableEq K] (m : List (K × V))
    (k k' : K) (f : V → V) (h : k' ≠ k) :
    dictGet? (dictUpd m k f) k' = dictGet? m k' := by
  induction m with
  | nil => simp [dictUpd]
  | cons p rest ih =>
    by_cases hp : p.1 = k
    · subst hp
      have hne : p.1 ≠ k' := fun hh => h hh.symm
      simp [dictUpd, dictGet?, hne]
    · simp only [dictUpd, if_neg hp]
      by_cases hp' : p.1 = k'
      · simp [dictGet?, hp']
      · simp [dictGet?, hp', ih]

lemma dictUpd_mem_of_get {K V : Type} [DecidableEq K] (m : List (K × V)) (k : K)
    (f : V → V) (v : V) (hv : dictGet? m k = some v) :
    (k, f v) ∈ dictUpd m k f := by
  induction m with
  | nil => simp [dictGet?] at hv
  | cons p rest ih =>
    by_cases h : p.1 = k
    · simp only [dictGet?, if_pos h] at hv
      obtain rfl : p.2 = v := by injection hv
      simp [dictUpd, if_pos h, h]
    · simp only [dictGet?, if_neg h] at hv
      simp [dictUpd, if_neg h, ih hv]

lemma dictUpd_mem_elim {K V : Type} [DecidableEq K] {m : List (K × V)} {k : K}
    {f : V → V} {q : K × V} (hq : q ∈ dictUpd m k f) :
    q ∈ m ∨ ∃ v, dictGet? m k = some v ∧ q = (k, f v) := by
  induction m with
  | nil => simp [dictUpd] at hq
  | cons p rest ih =>
    by_cases h : p.1 = k
    · simp only [dictUpd, if_pos h] at hq
      rcases List.mem_cons.mp hq with rfl | hq
      · exact Or.inr ⟨p.2, by simp [dictGet?, h], by simp [h]⟩
      · exact Or.inl (List.mem_cons_of_mem _ hq)
    · simp only [dictUpd, if_neg h] at hq
      rcases List.mem_cons.mp hq with rfl | hq
      · exact Or.inl (List.mem_cons_self _ _)
      · rcases ih hq with hm | ⟨v, hv, rfl⟩
        · exact Or.inl (List.mem_cons_of_mem _ hm)
        · exact Or.inr ⟨v, by simp [dictGet?, h, hv], rfl⟩

lemma dictGet?_isSome_insert {K V : Type} [DecidableEq K] (m : List (K × V))
    (k k' : K) (v : V) (h : (dictGet? m k').isSome) :
    (dictGet? (dictInsert m k v) k').isSome := by
  by_cases hk : k' = k
  · subst hk; simp [dictGet?_insert_self]
  · rwa [dictGet?_insert_other m k k' v hk]

lemma dictGet?_isSome_upd {K V : Type} [DecidableEq K] (m : List (K × V))
    (k k' : K) (f : V → V) (h : (dictGet? m k').isSome) :
    (dictGet? (dictUpd m k f) k').isSome := by
  by_cases hk : k' = k
  · subst hk
    rw [dictGet?_upd_self]
    cases hh : dictGet? m k' <;> simp [hh] at h ⊢
  · rwa [dictGet?_upd_other m k k' f hk]

/-- C9 counterexample.  On a failing store both allocator reads swallow
the exception and return a normal result dict — the zero/empty shape
(`get_criteria_allocation_status` even reports
`allocation_possible = true`) with an added `error` entry — instead of
propagating a distinct store-unavailable error to the caller. -/
theorem c9_counterexample :
    (get_available_after_criteria_claims (.error "connectivity") blankSearch).total_matching = 0 ∧
    (get_available_after_criteria_claims (.error "connectivity") blankSearch).claimed_by_criteria = 0 ∧
    (get_available_after_criteria_claims (.error "connectivity") blankSearch).available = 0 ∧
    (get_available_after_criteria_claims (.error "connectivity") blankSearch).criteria_claims = [] ∧
    (get_available_after_criteria_claims (.error "connectivity") blankSearch).error = some "connectivity" ∧
    (get_criteria_allocation_status (.error "connectivity")).allocation_possible = true ∧
    (get_criteria_allocation_status (.error "connectivity")).trade_status = [] ∧
    (get_criteria_allocation_status (.error "connectivity")).error = some "connectivity" :=
  ⟨rfl, rfl, rfl, rfl, rfl, rfl, rfl, rfl⟩

/-- C9 amended.  A store-layer failure is caught inside both allocator
reads: each returns its zero/empty result shape with the failure message
under the `error` key (and `get_criteria_allocation_status` reports
`allocation_possible = true`); no store-unavailable error propagates, and
the result differs from the genuinely-empty-data result only by the
`error` entry. -/
theorem c9_store_failure_swallowed (e : String) (sc : SearchCriteria) :
    get_available_after_criteria_claims (.error e) sc =
      { total_matching := 0, claimed_by_criteria := 0, available := 0,
        criteria_claims := [], inventory_items := none, error := some e } ∧
    get_criteria_allocation_status (.error e) =
      { trade_status := [], criteria_status := none, total_available := 0,
        total_required := 0, conflicts := [], allocation_possible := true,
        allocated_serials := none, error := some e } ∧
    get_available_after_criteria_claims (.error e) sc =
      { get_available_after_criteria_claims (.ok ([], [])) sc with error := some e } :=
  ⟨rfl, rfl, rfl⟩

/-- C3 counterexample inputs: two active criteria whose match-lists are
disjoint (registries `Verra` vs `GS`). -/
def c3ItemV : Item := { blankItem with id := 1, registry := "Verra", serial := "s1" }

/-- Second C3 counterexample unit. -/
def c3ItemG : Item := { blankItem with id := 2, registry := "GS", serial := "s2" }

/-- First C3 counterexample criteria (matches only the Verra unit). -/
def c3CritV : Crit :=
  { blankCrit with id := 1, trade_id := "T1", quantity_required := 1, registry := "Verra" }

/-- Second C3 counterexample criteria (matches only the GS unit). -/
def c3CritG : Crit :=
  { blankCrit with id := 2, trade_id := "T2", quantity_required := 1, registry := "GS" }

/-- C3 counterexample.  For the pair of disjoint criteria the combined
required quantity (2) exceeds the (empty) intersection of their
match-lists, yet no conflict entry is recorded: the source only records
an entry when the intersection is non-empty, refuting the claim's
"including when that intersection is empty". -/
theorem c3_counterexample :
    (allocationStatusCore [c3CritV, c3CritG] [c3ItemV, c3ItemG]).conflicts = [] ∧
    ((matchesOf (buildMatches (unflagged [c3ItemV, c3ItemG]) [c3CritV, c3CritG]) c3CritV.id).toFinset ∩
      (matchesOf (buildMatches (unflagged [c3ItemV, c3ItemG]) [c3CritV, c3CritG]) c3CritG.id).toFinset).card = 0 ∧
    c3CritV.quantity_required + c3CritG.quantity_required > 0 := by
  refine ⟨by decide, by decide, by decide⟩

/-- C6.  The snapshot-restore contract of `restore_criteria_on_unassign`:
an existing criteria gets `count` added back; a deleted criteria with a
snapshot is recreated with quantity `count`, the snapshot's trade id and
filter fields, status `criteria_only` and a fresh id; with neither, the
registry is returned unchanged and the operation merely reports a
failure flag instead of raising. -/
theorem c6_snapshot_restore_contract (reg : List Crit) (next_id cid : Nat)
    (qty : Int) (snap : Option CritSnapshot)
    (hids : (reg.map (·.id)).Nodup)
    (hfresh : ∀ c ∈ reg, c.id < next_id) :
    ((∃ c ∈ reg, c.id = cid) →
      restore_criteria_on_unassign reg next_id cid qty snap =
        (reg.map fun x => if x.id = cid then
          { x with quantity_required := x.quantity_required + qty } else x, true)) ∧
    ((∀ c ∈ reg, c.id ≠ cid) → ∀ s, snap = some s →
      restore_criteria_on_unassign reg next_id cid qty snap =
        (reg ++ [{ id := next_id, trade_id := s.trade_id,
                   direction := s.direction.getD "sell",
                   quantity_required := qty, status := "criteria_only",
                   market := s.market, registry := s.registry,
                   product := s.product, project_type := s.project_type,
                   protocol := s.protocol, project_id := s.project_id,
                   vintage_from := s.vintage_from,
                   vintage_to := s.vintage_to }], true) ∧
      ∀ c ∈ reg, c.id ≠ next_id) ∧
    ((∀ c ∈ reg, c.id ≠ cid) → snap = none →
      restore_criteria_on_unassign reg next_id cid qty snap = (reg, false)) := by
  refine ⟨?_, ?_, ?_⟩
  · rintro ⟨c, hc, rfl⟩
    cases h0 : reg.find? (fun x => decide (x.id = c.id)) with
    | none =>
      rw [List.find?_eq_none] at h0
      have hcontr := h0 c hc
      simp at hcontr
    | some c0 =>
      have hc0m : c0 ∈ reg := List.mem_of_find?_eq_some h0
      have hc0id : c0.id = c.id := by simpa using List.find?_some h0
      have : c0 = c := List.inj_on_of_nodup_map hids hc0m hc hc0id
      subst this
      unfold restore_criteria_on_unassign
      rw [h0]
      refine congrArg (·, true) (List.map_congr_left fun x hx => ?_)
      by_cases hxid : x.id = c0.id
      · have : x = c0 := List.inj_on_of_nodup_map hids hx hc0m hxid
        subst this
        simp
      · simp [hxid]
  · intro hnone s hs
    subst hs
    have h0 : reg.find? (fun x => decide (x.id = cid)) = none := by
      rw [List.find?_eq_none]
      intro x hx
      simpa using hnone x hx
    constructor
    · unfold restore_criteria_on_unassign
      rw [h0]
    · intro c hc
      exact Nat.ne_of_lt (hfresh c hc)
  · intro hnone hs
    subst hs
    have h0 : reg.find? (fun x => decide (x.id = cid)) = none := by
      rw [List.find?_eq_none]
      intro x hx
      simpa using hnone x hx
    unfold restore_criteria_on_unassign
    rw [h0]

/-- A one-row registry used as concrete input for witnesses. -/
def c6Row : Crit := { blankCrit with id := 1, trade_id := "T", quantity_required := 5 }

/-- C6 witness at a concrete registry. -/
theorem c6_snapshot_restore_contract_witness :
    ((([c6Row].map (·.id)).Nodup ∧ ∀ c ∈ [c6Row], c.id < 2) ∧ True) ∧
    (((∃ c ∈ [c6Row], c.id = 1) →
      restore_criteria_on_unassign [c6Row] 2 1 3 none =
        ([c6Row].map fun x => if x.id = 1 then
          { x with quantity_required := x.quantity_required + 3 } else x, true)) ∧
    ((∀ c ∈ [c6Row], c.id ≠ 1) → ∀ s, (none : Option CritSnapshot) = some s →
      restore_criteria_on_unassign [c6Row] 2 1 3 none =
        ([c6Row] ++ [{ id := 2, trade_id := s.trade_id,
                       direction := s.direction.getD "sell",
                       quantity_required := 3, status := "criteria_only",
                       market := s.market, registry := s.registry,
                       product := s.product, project_type := s.project_type,
                       protocol := s.protocol, project_id := s.project_id,
                       vintage_from := s.vintage_from,
                       vintage_to := s.vintage_to }], true) ∧
      ∀ c ∈ [c6Row], c.id ≠ 2) ∧
    ((∀ c ∈ [c6Row], c.id ≠ 1) → (none : Option CritSnapshot) = none →
      restore_criteria_on_unassign [c6Row] 2 1 3 none = ([c6Row], false))) :=
  ⟨⟨⟨by decide, by decide⟩, trivial⟩,
    c6_snapshot_restore_contract [c6Row] 2 1 3 none (by decide) (by decide)⟩

lemma reduceStep_pos (acc : List Crit × Int) (crit : Crit)
    (h : ∀ c ∈ acc.1, 0 < c.quantity_required) :
    ∀ c ∈ (reduceStep acc crit).1, 0 < c.quantity_required := by
  unfold reduceStep
  dsimp only
  split_ifs with h1 h2 h3
  · exact h
  · intro c hc
    exact h c (List.mem_of_mem_filter hc)
  · intro c hc
    rcases List.mem_map.mp hc with ⟨x, hx, rfl⟩
    by_cases hid : x.id = crit.id
    · simp only [if_pos hid]
      omega
    · simp only [if_neg hid]
      exact h x hx
  · exact h

lemma reduceLoop_pos (sel : List Crit) :
    ∀ (acc : List Crit × Int), (∀ c ∈ acc.1, 0 < c.quantity_required) →
      ∀ c ∈ (sel.foldl reduceStep acc).1, 0 < c.quantity_required := by
  induction sel with
  | nil => intro acc h; exact h
  | cons crit rest ih =>
    intro acc h
    exact ih (reduceStep acc crit) (reduceStep_pos acc crit h)

/-- C8.  Quantity non-negativity: if every stored criteria has a positive
required quantity, then after any `update_criteria_quantity` or
`update_specific_criteria_quantity` call every remaining criteria still
has a positive required quantity — a decrement that would reach or pass
zero deletes the record instead of storing a non-positive quantity. -/
theorem c8_quantity_positive_invariant (reg : List Crit) (tid : String)
    (delta : Int) (cid : Nat) (delta2 : Int)
    (hpos : ∀ c ∈ reg, 0 < c.quantity_required) :
    (∀ c ∈ update_criteria_quantity reg tid delta, 0 < c.quantity_required) ∧
    (∀ c ∈ update_specific_criteria_quantity reg cid delta2, 0 < c.quantity_required) := by
  constructor
  · unfold update_criteria_quantity
    dsimp only
    split_ifs with h1 h2
    · exact hpos
    · exact reduceLoop_pos _ (reg, -delta) hpos
    · cases hsel : List.insertionSort critIdLe (reg.filter (critRowMatch tid)) with
      | nil => exact hpos
      | cons first rest =>
        intro c hc
        rcases List.mem_map.mp hc with ⟨x, hx, rfl⟩
        by_cases hid : x.id = first.id
        · simp only [if_pos hid]
          have hfm : first ∈ reg := by
            have : first ∈ List.insertionSort critIdLe (reg.filter (critRowMatch tid)) := by
              rw [hsel]; exact List.mem_cons_self _ _
            exact List.mem_of_mem_filter
              ((List.perm_insertionSort critIdLe _).mem_iff.mp this)
          have := hpos first hfm
          omega
        · simp only [if_neg hid]
          exact hpos x hx
  · unfold update_specific_criteria_quantity
    cases h0 : reg.find? (fun c => decide (c.id = cid) &&
        decide (c.status = "criteria_only")) with
    | none => exact hpos
    | some criteria =>
      dsimp only
      split_ifs with h1
      · intro c hc
        exact hpos c (List.mem_of_mem_filter hc)
      · intro c hc
        rcases List.mem_map.mp hc with ⟨x, hx, rfl⟩
        by_cases hid : x.id = cid
        · simp only [if_pos hid]
          omega
        · simp only [if_neg hid]
          exact hpos x hx

/-- C8 witness at a concrete registry and both delta signs exercised via
`tid = "T"`, `delta = -7`, `cid = 1`, `delta2 = -5`. -/
theorem c8_quantity_positive_invariant_witness :
    (∀ c ∈ [c6Row], 0 < c.quantity_required) ∧
    ((∀ c ∈ update_criteria_quantity [c6Row] "T" (-7), 0 < c.quantity_required) ∧
     (∀ c ∈ update_specific_criteria_quantity [c6Row] 1 (-5), 0 < c.quantity_required)) :=
  ⟨by decide, c8_quantity_positive_invariant [c6Row] "T" (-7) 1 (-5) (by decide)⟩

/-- "No criteria entry is marked `conflict`" over a criteria-status
dict. -/
def noConflict (m : List (Nat × CritStatusEntry)) : Prop :=
  ∀ p ∈ m, p.2.status ≠ "conflict"

lemma noConflict_dictInsert {m : List (Nat × CritStatusEntry)} {k : Nat}
    {v : CritStatusEntry} (hm : noConflict m) (hv : v.status ≠ "conflict") :
    noConflict (dictInsert m k v) := by
  induction m with
  | nil =>
    intro p hp
    simp only [dictInsert, List.mem_singleton] at hp
    subst hp; exact hv
  | cons q rest ih =>
    intro p hp
    by_cases hq : q.1 = k
    · simp only [dictInsert, if_pos hq] at hp
      rcases List.mem_cons.mp hp with rfl | hp
      · exact hv
      · exact hm p (List.mem_cons_of_mem _ hp)
    · simp only [dictInsert, if_neg hq] at hp
      rcases List.mem_cons.mp hp with rfl | hp
      · exact hm p (List.mem_cons_self _ _)
      · exact ih (fun r hr => hm r (List.mem_cons_of_mem _ hr)) p hp

lemma noConflict_dictUpd_iff {m : List (Nat × CritStatusEntry)} {k : Nat}
    {f : CritStatusEntry → CritStatusEntry}
    (hf : ∀ v, (f v).status = v.status) :
    noConflict (dictUpd m k f) ↔ noConflict m := by
  induction m with
  | nil => simp [dictUpd]
  | cons q rest ih =>
    by_cases hq : q.1 = k
    · simp only [dictUpd, if_pos hq]
      constructor
      · intro h p hp
        rcases List.mem_cons.mp hp with hpq | hp
        · have hq2 := h (q.1, f q.2) (List.mem_cons_self _ _)
          rw [hpq]
          simpa [hf] using hq2
        · exact h p (List.mem_cons_of_mem _ hp)
      · intro h p hp
        rcases List.mem_cons.mp hp with hpq | hp
        · have hq2 := h q (List.mem_cons_self _ _)
          rw [hpq]
          simpa [hf] using hq2
        · exact h p (List.mem_cons_of_mem _ hp)
    · simp only [dictUpd, if_neg hq]
      constructor
      · intro h p hp
        rcases List.mem_cons.mp hp with rfl | hp
        · exact h p (List.mem_cons_self _ _)
        · exact (ih.mp fun r hr => h r (List.mem_cons_of_mem _ hr)) p hp
      · intro h p hp
        rcases List.mem_cons.mp hp with rfl | hp
        · exact h p (List.mem_cons_self _ _)
        · exact (ih.mpr fun r hr => h r (List.mem_cons_of_mem _ hr)) p hp

lemma not_noConflict_dictUpd_conflict {m : List (Nat × CritStatusEntry)}
    {k : Nat} {f : CritStatusEntry → CritStatusEntry} {v : CritStatusEntry}
    (hv : dictGet? m k = some v) (hf : (f v).status = "conflict") :
    ¬ noConflict (dictUpd m k f) := by
  intro h
  exact h (k, f v) (dictUpd_mem_of_get m k f v hv) hf

lemma pass1Step_presence (cm : List (Nat × List Nat)) (st : Pass1State)
    (c : Crit) (k : Nat) (h : (dictGet? st.cs k).isSome) :
    (dictGet? (pass1Step cm st c).cs k).isSome := by
  unfold pass1Step
  exact dictGet?_isSome_insert _ _ _ _ h

lemma pass1_fold_presence (cm : List (Nat × List Nat)) (crits : List Crit) :
    ∀ (st : Pass1State) (k : Nat), (dictGet? st.cs k).isSome →
      (dictGet? (crits.foldl (pass1Step cm) st).cs k).isSome := by
  induction crits with
  | nil => intro st k h; exact h
  | cons c rest ih =>
    intro st k h
    exact ih (pass1Step cm st c) k (pass1Step_presence cm st c k h)

lemma pass1_fold_keys (cm : List (Nat × List Nat)) (crits : List Crit) :
    ∀ (st : Pass1State) (c : Crit), c ∈ crits →
      (dictGet? (crits.foldl (pass1Step cm) st).cs c.id).isSome := by
  induction crits with
  | nil => intro st c h; cases h
  | cons d rest ih =>
    intro st c hc
    rcases List.mem_cons.mp hc with rfl | hc
    · refine pass1_fold_presence cm rest (pass1Step cm st c) c.id ?_
      unfold pass1Step
      simp [dictGet?_insert_self]
    · exact ih (pass1Step cm st d) c hc

lemma pass1_fold_noConflict (cm : List (Nat × List Nat)) (crits : List Crit) :
    ∀ (st : Pass1State), noConflict st.cs →
      noConflict (crits.foldl (pass1Step cm) st).cs := by
  induction crits with
  | nil => intro st h; exact h
  | cons c rest ih =>
    intro st h
    refine ih (pass1Step cm st c) ?_
    unfold pass1Step
    refine noConflict_dictInsert h ?_
    dsimp only
    split_ifs <;> decide

lemma pass2Step_presence (cm : List (Nat × List Nat)) (i2s : Nat → Option String)
    (st : Pass2State) (c : Crit) (k : Nat) (h : (dictGet? st.cs k).isSome) :
    (dictGet? (pass2Step cm i2s st c).cs k).isSome := by
  unfold pass2Step
  dsimp only
  split_ifs <;> exact dictGet?_isSome_upd _ _ _ _ h

lemma pass2_fold_invariant (cm : List (Nat × List Nat))
    (i2s : Nat → Option String) (crits : List Crit) :
    ∀ (st : Pass2State),
      (∀ c ∈ crits, (dictGet? st.cs c.id).isSome) →
      (st.allocation_success = true ↔ noConflict st.cs) →
      ((crits.foldl (pass2Step cm i2s) st).allocation_success = true ↔
        noConflict (crits.foldl (pass2Step cm i2s) st).cs) := by
  induction crits with
  | nil => intro st _ h; exact h
  | cons c rest ih =>
    intro st hkeys hinv
    refine ih (pass2Step cm i2s st c) ?_ ?_
    · intro d hd
      exact pass2Step_presence cm i2s st c d.id (hkeys d (List.mem_cons_of_mem _ hd))
    · have hkc : (dictGet? st.cs c.id).isSome := hkeys c (List.mem_cons_self _ _)
      obtain ⟨v, hv⟩ := Option.isSome_iff_exists.mp hkc
      unfold pass2Step
      dsimp only
      split_ifs with hge
      · simpa using (hinv.trans (noConflict_dictUpd_iff (by intro w; rfl)).symm)
      · simp only [false_iff]
        exact not_noConflict_dictUpd_conflict hv rfl

/-- C2.  `allocation_possible` is `true` iff no entry of the returned
`criteria_status` carries status `conflict`, i.e. iff no criteria was
marked `conflict` during the FIFO pass (the only place that writes that
status), independently of the pairwise conflict entries. -/
theorem c2_allocation_possible_iff_no_conflict (all_criteria : List Crit)
    (inventory : List Item) :
    (allocationStatusCore all_criteria inventory).allocation_possible = true ↔
      ∀ p ∈ (allocationStatusCore all_criteria inventory).criteria_status.getD [],
        p.2.status ≠ "conflict" := by
  unfold allocationStatusCore
  by_cases hne : all_criteria.isEmpty
  · simp [hne]
  · simp only [if_neg hne, Option.getD_some]
    have hkeys : ∀ c ∈ all_criteria,
        (dictGet? ((all_criteria.foldl
          (pass1Step (buildMatches (unflagged inventory) all_criteria))
          { cs := [], ts := [] }).cs) c.id).isSome :=
      fun c hc => pass1_fold_keys _ _ _ c hc
    have hnc := pass1_fold_noConflict (buildMatches (unflagged inventory) all_criteria)
      all_criteria { cs := [], ts := [] } (by intro p hp; cases hp)
    have hmain := pass2_fold_invariant (buildMatches (unflagged inventory) all_criteria)
      (idToSerial (unflagged inventory)) all_criteria
      { allocation_success := true, allocated := ∅, allocated_serials := ∅,
        cs := (all_criteria.foldl
          (pass1Step (buildMatches (unflagged inventory) all_criteria))
          { cs := [], ts := [] }).cs,
        ts := (all_criteria.foldl
          (pass1Step (buildMatches (unflagged inventory) all_criteria))
          { cs := [], ts := [] }).ts }
      hkeys (iff_of_true rfl hnc)
    simpa [noConflict] using hmain

instance : IsTotal Item invOrder := by
  constructor
  intro a b
  rcases lt_trichotomy a.vintage.data b.vintage.data with h | h | h
  · exact Or.inl (Or.inl h)
  · have hv : a.vintage = b.vintage := String.ext h
    rcases le_total a.serial.data b.serial.data with hs | hs
    · exact Or.inl (Or.inr ⟨hv, hs⟩)
    · exact Or.inr (Or.inr ⟨hv.symm, hs⟩)
  · exact Or.inr (Or.inl h)

instance : IsTrans Item invOrder := by
  constructor
  intro a b c hab hbc
  rcases hab with hab | ⟨hab, hab2⟩
  · rcases hbc with hbc | ⟨hbc, -⟩
    · exact Or.inl (lt_trans hab hbc)
    · exact Or.inl (hbc ▸ hab)
  · rcases hbc with hbc | ⟨hbc, hbc2⟩
    · exact Or.inl (hab ▸ hbc)
    · exact Or.inr ⟨hab.trans hbc, le_trans hab2 hbc2⟩

lemma invOrder_key_eq {a b : Item} (hab : invOrder a b) (hba : invOrder b a) :
    a.vintage = b.vintage ∧ a.serial = b.serial := by
  rcases hab with hab | ⟨hab, hab2⟩
  · rcases hba with hba | ⟨hba, -⟩
    · exact absurd (lt_trans hab hba) (lt_irrefl _)
    · exact absurd (hba ▸ hab) (lt_irrefl _)
  · rcases hba with hba | ⟨-, hba2⟩
    · exact absurd (hab ▸ hba) (lt_irrefl _)
    · exact ⟨hab, String.ext (le_antisymm hab2 hba2)⟩

lemma sorted_perm_eq_of_serial_nodup :
    ∀ {l₁ l₂ : List Item}, l₁.Perm l₂ →
      l₁.Sorted invOrder → l₂.Sorted invOrder →
      (l₂.map (fun it => it.serial)).Nodup → l₁ = l₂ := by
  intro l₁
  induction l₁ with
  | nil =>
    intro l₂ hp _ _ _
    exact (List.Perm.nil_eq hp).symm ▸ rfl
  | cons h₁ t₁ ih =>
    intro l₂ hp hs₁ hs₂ hnd
    cases l₂ with
    | nil => exact absurd hp.symm (by simp)
    | cons h₂ t₂ =>
      by_cases hh : h₁ = h₂
      · subst hh
        have hp' := hp.cons_inv
        have := ih hp' (List.sorted_cons.mp hs₁).2 (List.sorted_cons.mp hs₂).2
          (by simpa using (List.nodup_cons.mp (by simpa using hnd)).2)
        rw [this]
      · exfalso
        have h₁mem : h₁ ∈ h₂ :: t₂ := hp.mem_iff.mp (List.mem_cons_self _ _)
        have h₁t₂ : h₁ ∈ t₂ := by
          rcases List.mem_cons.mp h₁mem with h | h
          · exact absurd h hh
          · exact h
        have h₂mem : h₂ ∈ h₁ :: t₁ := hp.mem_iff.mpr (List.mem_cons_self _ _)
        have h₂t₁ : h₂ ∈ t₁ := by
          rcases List.mem_cons.mp h₂mem with h | h
          · exact absurd h.symm hh
          · exact h
        have hab : invOrder h₁ h₂ := (List.sorted_cons.mp hs₁).1 h₂ h₂t₁
        have hba : invOrder h₂ h₁ := (List.sorted_cons.mp hs₂).1 h₁ h₁t₂
        have hser : h₂.serial = h₁.serial := (invOrder_key_eq hba hab).2
        have : h₂.serial ∈ t₂.map (fun it => it.serial) := by
          rw [hser]
          exact List.mem_map_of_mem _ h₁t₂
        exact (List.nodup_cons.mp (by simpa using hnd)).1 this

lemma sortInventory_eq_of_perm (l₁ l₂ : List Item) (hp : l₁.Perm l₂)
    (hnd : (l₂.map (fun it => it.serial)).Nodup) :
    sortInventory l₁ = sortInventory l₂ := by
  refine sorted_perm_eq_of_serial_nodup
    ((List.perm_insertionSort _ l₁).trans (hp.trans (List.perm_insertionSort _ l₂).symm))
    (List.sorted_insertionSort _ l₁) (List.sorted_insertionSort _ l₂) ?_
  exact (((List.perm_insertionSort invOrder l₂).map (fun it => it.serial)).nodup_iff).mpr hnd

/-- C10.  The result of `get_available_after_criteria_claims` — in
particular the per-unit `claimed`/`available` statuses of
`inventory_items` — is invariant under permutation of the inventory
table's row order (given distinct serials): the matching pool is
normalised by the `ORDER BY vintage, serial` sort before the FIFO pass
claims its first units, so nothing depends on row insertion order. -/
theorem c10_claims_row_order_independent (inventory₁ inventory₂ : List Item)
    (all_criteria : List Crit) (sc : SearchCriteria)
    (hperm : inventory₁.Perm inventory₂)
    (hnd : (inventory₂.map (fun it => it.serial)).Nodup) :
    claimsCore inventory₁ all_criteria sc = claimsCore inventory₂ all_criteria sc := by
  have hf : (inventory₁.filter (sqlWhere sc)).Perm (inventory₂.filter (sqlWhere sc)) :=
    hperm.filter _
  have hnd' : ((inventory₂.filter (sqlWhere sc)).map (fun it => it.serial)).Nodup :=
    List.Nodup.sublist ((List.filter_sublist _).map _) hnd
  have hkey := sortInventory_eq_of_perm _ _ hf hnd'
  unfold claimsCore
  rw [hkey]

/-- Concrete units for the C10 witness. -/
def c10ItemA : Item := { blankItem with id := 1, vintage := "2022", serial := "A" }

/-- Second concrete unit for the C10 witness. -/
def c10ItemB : Item := { blankItem with id := 2, vintage := "2021", serial := "B" }

/-- C10 witness: the two row orders of the same two units produce the
same result. -/
theorem c10_claims_row_order_independent_witness :
    ([c10ItemA, c10ItemB].Perm [c10ItemB, c10ItemA] ∧
      ([c10ItemB, c10ItemA].map (fun it => it.serial)).Nodup) ∧
    claimsCore [c10ItemA, c10ItemB] [c6Row] blankSearch =
      claimsCore [c10ItemB, c10ItemA] [c6Row] blankSearch :=
  ⟨⟨List.Perm.swap c10ItemB c10ItemA [], by decide⟩,
    c10_claims_row_order_independent [c10ItemA, c10ItemB] [c10ItemB, c10ItemA]
      [c6Row] blankSearch (List.Perm.swap c10ItemB c10ItemA []) (by decide)⟩

lemma dictGet?_eq_none_iff {K V : Type} [DecidableEq K] (m : List (K × V)) (k : K) :
    dictGet? m k = none ↔ k ∉ m.map (·.1) := by
  induction m with
  | nil => simp [dictGet?]
  | cons p rest ih =>
    by_cases h : p.1 = k
    · simp [dictGet?, h]
    · have h' : ¬ k = p.1 := fun hh => h hh.symm
      simp [dictGet?, h, h', ih]

lemma dictKeys_dictUpd {K V : Type} [DecidableEq K] (m : List (K × V)) (k : K)
    (f : V → V) : (dictUpd m k f).map (·.1) = m.map (·.1) := by
  induction m with
  | nil => simp [dictUpd]
  | cons p rest ih =>
    by_cases h : p.1 = k
    · simp [dictUpd, h]
    · simp [dictUpd, h, ih]

lemma dictKeys_dictInsert_absent {K V : Type} [DecidableEq K] (m : List (K × V))
    (k : K) (v : V) (h : dictGet? m k = none) :
    (dictInsert m k v).map (·.1) = m.map (·.1) ++ [k] := by
  induction m with
  | nil => simp [dictInsert]
  | cons p rest ih =>
    by_cases hp : p.1 = k
    · simp [dictGet?, hp] at h
    · simp only [dictGet?, if_neg hp] at h
      simp [dictInsert, hp, ih h]

lemma dictAppend_get_self (m : List (String × List String)) (k v : String) :
    dictGet? (dictAppend m k v) k = some ((dictGet? m k).getD [] ++ [v]) := by
  unfold dictAppend
  cases h : dictGet? m k with
  | none =>
    simp only [h, Option.isSome_none, Bool.false_eq_true, if_false]
    rw [dictGet?_upd_self, dictGet?_insert_self]
    simp
  | some l =>
    simp only [h, Option.isSome_some, if_true]
    rw [dictGet?_upd_self, h]
    simp

lemma dictAppend_get_other (m : List (String × List String)) (k k' v : String)
    (h : k' ≠ k) :
    dictGet? (dictAppend m k v) k' = dictGet? m k' := by
  unfold dictAppend
  cases hm : dictGet? m k with
  | none =>
    simp only [hm, Option.isSome_none, Bool.false_eq_true, if_false]
    rw [dictGet?_upd_other _ _ _ _ h, dictGet?_insert_other _ _ _ _ h]
  | some l =>
    simp only [hm, Option.isSome_some, if_true]
    rw [dictGet?_upd_other _ _ _ _ h]

lemma dictAppend_keys_nodup (m : List (String × List String)) (k v : String)
    (h : (m.map (·.1)).Nodup) : ((dictAppend m k v).map (·.1)).Nodup := by
  unfold dictAppend
  cases hm : dictGet? m k with
  | none =>
    simp only [hm, Option.isSome_none, Bool.false_eq_true, if_false]
    rw [dictKeys_dictUpd, dictKeys_dictInsert_absent m k [] hm]
    have hk : k ∉ m.map (·.1) := (dictGet?_eq_none_iff m k).mp hm
    refine List.Nodup.append h (List.nodup_singleton _) ?_
    intro a ha hb
    rw [List.mem_singleton] at hb
    subst hb
    exact hk ha
  | some l =>
    simp only [hm, Option.isSome_some, if_true]
    rw [dictKeys_dictUpd]
    exact h

lemma dictInsert_mem_elim {K V : Type} [DecidableEq K] {m : List (K × V)} {k : K}
    {v : V} {q : K × V} (hq : q ∈ dictInsert m k v) : q ∈ m ∨ q = (k, v) := by
  induction m with
  | nil => simp [dictInsert] at hq; exact Or.inr hq
  | cons p rest ih =>
    by_cases h : p.1 = k
    · simp only [dictInsert, if_pos h] at hq
      rcases List.mem_cons.mp hq with rfl | hq
      · exact Or.inr rfl
      · exact Or.inl (List.mem_cons_of_mem _ hq)
    · simp only [dictInsert, if_neg h] at hq
      rcases List.mem_cons.mp hq with rfl | hq
      · exact Or.inl (List.mem_cons_self _ _)
      · rcases ih hq with hm | hv
        · exact Or.inl (List.mem_cons_of_mem _ hm)
        · exact Or.inr hv

/-- All ordered pairs `(l[i], l[j])` with `i < j` — the enumeration of
the source's nested `for i ... for ... in all_criteria[i+1:]` loops. -/
def listPairs {α : Type} : List α → List (α × α)
  | [] => []
  | x :: rest => (rest.map (fun y => (x, y))) ++ listPairs rest

/-- The two trades a single conflict entry contributes to trade `t`'s
`conflicts_with` set. -/
def pairAdd (e : ConflictEntry) (t : String) : Finset String :=
  (if e.trade1 = t then {e.trade2} else ∅) ∪ (if e.trade2 = t then {e.trade1} else ∅)

/-- The deduplicated set of trades paired with `t` across a list of
conflict entries (the specification's description of
`conflicts_with`). -/
def partners : List ConflictEntry → String → Finset String
  | [], _ => ∅
  | e :: rest, t => pairAdd e t ∪ partners rest t

lemma pairLoop_eq_listPairs (cm : List (Nat × List Nat)) (crits : List Crit) :
    pairLoop cm crits = (listPairs crits).filterMap (fun p => pairEntry cm p.1 p.2) := by
  induction crits with
  | nil => simp [pairLoop, listPairs]
  | cons c rest ih =>
    simp only [pairLoop, listPairs, ih, List.filterMap_append]
    rw [List.filterMap_map]
    rfl

lemma dictGet?_some_mem {K V : Type} [DecidableEq K] {m : List (K × V)} {k : K}
    {v : V} (h : dictGet? m k = some v) : (k, v) ∈ m := by
  induction m with
  | nil => simp [dictGet?] at h
  | cons p rest ih =>
    by_cases hp : p.1 = k
    · subst hp
      simp only [dictGet?, if_pos rfl] at h
      obtain rfl : p.2 = v := by injection h
      exact List.mem_cons_self p rest
    · simp only [dictGet?, if_neg hp] at h
      exact List.mem_cons_of_mem _ (ih h)

lemma tcStep_get (m : List (String × List String)) (e : ConflictEntry) (t : String) :
    ((dictGet? (dictAppend (dictAppend m e.trade1 e.trade2) e.trade2 e.trade1) t).getD
      []).toFinset =
      ((dictGet? m t).getD []).toFinset ∪ pairAdd e t := by
  by_cases h1 : e.trade1 = t <;> by_cases h2 : e.trade2 = t
  · rw [h2, dictAppend_get_self, h1, dictAppend_get_self]
    simp [pairAdd, h1, h2, Finset.union_assoc]
  · rw [dictAppend_get_other _ _ _ _ (fun hh : t = e.trade2 => h2 hh.symm),
      h1, dictAppend_get_self]
    simp [pairAdd, h1, h2]
  · rw [h2, dictAppend_get_self,
      dictAppend_get_other _ _ _ _ (fun hh : t = e.trade1 => h1 hh.symm)]
    simp [pairAdd, h1, h2]
  · rw [dictAppend_get_other _ _ _ _ (fun hh : t = e.trade2 => h2 hh.symm),
      dictAppend_get_other _ _ _ _ (fun hh : t = e.trade1 => h1 hh.symm)]
    simp [pairAdd, h1, h2]

lemma tc_fold_get (entries : List ConflictEntry) :
    ∀ (m : List (String × List String)) (t : String),
      ((dictGet? (entries.foldl
          (fun m e => dictAppend (dictAppend m e.trade1 e.trade2) e.trade2 e.trade1)
          m) t).getD []).toFinset =
        ((dictGet? m t).getD []).toFinset ∪ partners entries t := by
  induction entries with
  | nil => intro m t; simp [partners]
  | cons e rest ih =>
    intro m t
    rw [List.foldl_cons, ih, tcStep_get, partners, Finset.union_assoc]

lemma buildTradeConflicts_get (entries : List ConflictEntry) (t : String) :
    ((dictGet? (buildTradeConflicts entries) t).getD []).toFinset =
      partners entries t := by
  unfold buildTradeConflicts
  rw [tc_fold_get]
  simp [dictGet?]

lemma buildTradeConflicts_keys_nodup (entries : List ConflictEntry) :
    ((buildTradeConflicts entries).map (·.1)).Nodup := by
  unfold buildTradeConflicts
  have main : ∀ (l : List ConflictEntry) (m : List (String × List String)),
      (m.map (·.1)).Nodup →
      ((l.foldl
        (fun m e => dictAppend (dictAppend m e.trade1 e.trade2) e.trade2 e.trade1)
        m).map (·.1)).Nodup := by
    intro l
    induction l with
    | nil => intro m h; exact h
    | cons e rest ih =>
      intro m h
      exact ih _ (dictAppend_keys_nodup _ _ _ (dictAppend_keys_nodup _ _ _ h))
  exact main entries [] (by simp)

lemma applyConflictsWith_get (tc : List (String × List String)) :
    ∀ (ts : List (String × TradeStatusEntry)) (t : String),
      ((tc.map (·.1)).Nodup) →
      dictGet? (applyConflictsWith ts tc) t =
        match dictGet? tc t with
        | some l => (dictGet? ts t).map
            (fun e => { e with conflicts_with := l.toFinset })
        | none => dictGet? ts t := by
  induction tc with
  | nil => intro ts t _; simp [applyConflictsWith, dictGet?]
  | cons p rest ih =>
    intro ts t hnd
    have hp : p.1 ∉ rest.map (·.1) := (List.nodup_cons.mp (by simpa using hnd)).1
    have hrest : (rest.map (·.1)).Nodup := (List.nodup_cons.mp (by simpa using hnd)).2
    have step_eq : applyConflictsWith ts (p :: rest) =
        applyConflictsWith
          (if (dictGet? ts p.1).isSome then
            dictUpd ts p.1 (fun e => { e with conflicts_with := p.2.toFinset })
          else ts) rest := by
      unfold applyConflictsWith
      rw [List.foldl_cons]
    rw [step_eq, ih _ t hrest]
    by_cases hpt : p.1 = t
    · subst hpt
      have hrt : dictGet? rest p.1 = none := (dictGet?_eq_none_iff _ _).mpr hp
      rw [hrt]
      have hhead : dictGet? (p :: rest) p.1 = some p.2 := by simp [dictGet?]
      rw [hhead]
      cases hts : dictGet? ts p.1 with
      | none =>
        simp only [hts, Option.isSome_none, Bool.false_eq_true, if_false]
        rfl
      | some e =>
        simp only [hts, Option.isSome_some, if_true]
        rw [dictGet?_upd_self, hts]
    · have hhead : dictGet? (p :: rest) t = dictGet? rest t := by
        simp [dictGet?, hpt]
      rw [hhead]
      have hts' : dictGet? (if (dictGet? ts p.1).isSome then
          dictUpd ts p.1 (fun e => { e with conflicts_with := p.2.toFinset })
          else ts) t = dictGet? ts t := by
        split_ifs with h
        · exact dictGet?_upd_other _ _ _ _ (fun hh => hpt hh.symm)
        · rfl
      rw [hts']

/-- "No trade entry has any `conflicts_with` yet" — true of the trade
status dict before the pairwise phase writes it. -/
def emptyCW (ts : List (String × TradeStatusEntry)) : Prop :=
  ∀ p ∈ ts, p.2.conflicts_with = ∅

lemma emptyCW_dictInsert {m : List (String × TradeStatusEntry)} {k : String}
    {v : TradeStatusEntry} (hm : emptyCW m) (hv : v.conflicts_with = ∅) :
    emptyCW (dictInsert m k v) := by
  intro p hp
  rcases dictInsert_mem_elim hp with h | h
  · exact hm p h
  · rw [h]; exact hv

lemma emptyCW_dictUpd {m : List (String × TradeStatusEntry)} {k : String}
    {f : TradeStatusEntry → TradeStatusEntry} (hm : emptyCW m)
    (hf : ∀ v, (f v).conflicts_with = v.conflicts_with) :
    emptyCW (dictUpd m k f) := by
  intro p hp
  rcases dictUpd_mem_elim hp with h | ⟨v, hv, rfl⟩
  · exact hm p h
  · rw [hf v]
    exact hm (k, v) (dictGet?_some_mem hv)

lemma pass1Step_emptyCW (cm : List (Nat × List Nat)) (st : Pass1State) (c : Crit)
    (h : emptyCW st.ts) : emptyCW (pass1Step cm st c).ts := by
  unfold pass1Step
  dsimp only
  split_ifs <;>
    first
      | exact emptyCW_dictUpd (emptyCW_dictUpd h (fun v => rfl))
          (fun v => by split_ifs <;> rfl)
      | exact emptyCW_dictUpd (emptyCW_dictUpd (emptyCW_dictInsert h rfl)
            (fun v => rfl))
          (fun v => by split_ifs <;> rfl)
      | exact emptyCW_dictUpd h (fun v => rfl)
      | exact emptyCW_dictUpd (emptyCW_dictInsert h rfl) (fun v => rfl)

lemma pass1_fold_emptyCW (cm : List (Nat × List Nat)) (crits : List Crit) :
    ∀ (st : Pass1State), emptyCW st.ts →
      emptyCW (crits.foldl (pass1Step cm) st).ts := by
  induction crits with
  | nil => intro st h; exact h
  | cons c rest ih => intro st h; exact ih _ (pass1Step_emptyCW cm st c h)

lemma pass2Step_emptyCW (cm : List (Nat × List Nat)) (i2s : Nat → Option String)
    (st : Pass2State) (c : Crit) (h : emptyCW st.ts) :
    emptyCW (pass2Step cm i2s st c).ts := by
  unfold pass2Step
  dsimp only
  split_ifs
  · exact h
  · exact emptyCW_dictUpd h (fun v => rfl)

lemma pass2_fold_emptyCW (cm : List (Nat × List Nat)) (i2s : Nat → Option String)
    (crits : List Crit) :
    ∀ (st : Pass2State), emptyCW st.ts →
      emptyCW (crits.foldl (pass2Step cm i2s) st).ts := by
  induction crits with
  | nil => intro st h; exact h
  | cons c rest ih => intro st h; exact ih _ (pass2Step_emptyCW cm i2s st c h)

lemma pairEntry_eq (cm : List (Nat × List Nat)) (c1 c2 : Crit) :
    pairEntry cm c1 c2 =
      (if ((matchesOf cm c1.id).toFinset ∩ (matchesOf cm c2.id).toFinset) ≠ ∅ ∧
          ((((matchesOf cm c1.id).toFinset ∩ (matchesOf cm c2.id).toFinset).card : Int) <
            c1.quantity_required + c2.quantity_required) then
        some { trade1 := c1.trade_id, trade2 := c2.trade_id,
               overlap_count := ((matchesOf cm c1.id).toFinset ∩
                 (matchesOf cm c2.id).toFinset).card,
               combined_need := c1.quantity_required + c2.quantity_required }
      else none) := by
  unfold pairEntry
  dsimp only
  by_cases h1 : ((matchesOf cm c1.id).toFinset ∩ (matchesOf cm c2.id).toFinset).Nonempty
  · by_cases h2 : c1.quantity_required + c2.quantity_required >
        ((((matchesOf cm c1.id).toFinset ∩ (matchesOf cm c2.id).toFinset)).card : Int)
    · rw [if_pos h1, if_pos h2, if_pos ⟨Finset.nonempty_iff_ne_empty.mp h1, h2⟩]
    · rw [if_pos h1, if_neg h2, if_neg (fun hc =>
        h2 (hc.2 : _ < c1.quantity_required + c2.quantity_required))]
  · rw [if_neg h1, if_neg (fun hc =>
      h1 (Finset.nonempty_iff_ne_empty.mpr hc.1))]

lemma allocationStatusCore_conflicts_eq (crits : List Crit) (inv : List Item) :
    (allocationStatusCore crits inv).conflicts =
      pairLoop (buildMatches (unflagged inv) crits) crits := by
  unfold allocationStatusCore
  by_cases hne : crits.isEmpty
  · have h0 : crits = [] := List.isEmpty_iff.mp hne
    subst h0
    rfl
  · rw [if_neg hne]

lemma allocationStatusCore_trade_status_eq (crits : List Crit) (inv : List Item) :
    (allocationStatusCore crits inv).trade_status =
      applyConflictsWith
        (crits.foldl
          (pass2Step (buildMatches (unflagged inv) crits) (idToSerial (unflagged inv)))
          { allocation_success := true, allocated := ∅, allocated_serials := ∅,
            cs := (crits.foldl (pass1Step (buildMatches (unflagged inv) crits))
              { cs := [], ts := [] }).cs,
            ts := (crits.foldl (pass1Step (buildMatches (unflagged inv) crits))
              { cs := [], ts := [] }).ts }).ts
        (buildTradeConflicts (pairLoop (buildMatches (unflagged inv) crits) crits)) := by
  unfold allocationStatusCore
  by_cases hne : crits.isEmpty
  · have h0 : crits = [] := List.isEmpty_iff.mp hne
    subst h0
    rfl
  · rw [if_neg hne]

/-- C3 (amended).  For every pair of distinct active criteria (in the
source's enumeration order) a conflict entry `{trade1, trade2,
overlap_count, combined_need}` is recorded exactly when the intersection
of their match-lists is NON-EMPTY and the pair's combined required
quantity exceeds the intersection size (an empty intersection records
nothing), and each trade's `conflicts_with` is exactly the deduplicated
set of trades paired with it across the recorded entries. -/
theorem c3_pairwise_conflict_characterization (all_criteria : List Crit)
    (inventory : List Item) :
    ((allocationStatusCore all_criteria inventory).conflicts =
      (listPairs all_criteria).filterMap (fun p =>
        if ((matchesOf (buildMatches (unflagged inventory) all_criteria) p.1.id).toFinset ∩
              (matchesOf (buildMatches (unflagged inventory) all_criteria) p.2.id).toFinset) ≠ ∅ ∧
            ((((matchesOf (buildMatches (unflagged inventory) all_criteria) p.1.id).toFinset ∩
              (matchesOf (buildMatches (unflagged inventory) all_criteria) p.2.id).toFinset).card : Int) <
              p.1.quantity_required + p.2.quantity_required) then
          some { trade1 := p.1.trade_id, trade2 := p.2.trade_id,
                 overlap_count := ((matchesOf (buildMatches (unflagged inventory) all_criteria) p.1.id).toFinset ∩
                   (matchesOf (buildMatches (unflagged inventory) all_criteria) p.2.id).toFinset).card,
                 combined_need := p.1.quantity_required + p.2.quantity_required }
        else none)) ∧
    (∀ t e, dictGet? (allocationStatusCore all_criteria inventory).trade_status t = some e →
      e.conflicts_with = partners (allocationStatusCore all_criteria inventory).conflicts t) := by
  constructor
  · rw [allocationStatusCore_conflicts_eq, pairLoop_eq_listPairs]
    exact List.filterMap_congr fun p _ =>
      pairEntry_eq (buildMatches (unflagged inventory) all_criteria) p.1 p.2
  · intro t e h
    rw [allocationStatusCore_trade_status_eq] at h
    rw [applyConflictsWith_get _ _ _ (buildTradeConflicts_keys_nodup _)] at h
    rw [allocationStatusCore_conflicts_eq]
    cases htc : dictGet? (buildTradeConflicts
        (pairLoop (buildMatches (unflagged inventory) all_criteria) all_criteria)) t with
    | some l =>
      rw [htc] at h
      obtain ⟨e0, he0, hfe⟩ := Option.map_eq_some'.mp h
      have hbg := buildTradeConflicts_get
        (pairLoop (buildMatches (unflagged inventory) all_criteria) all_criteria) t
      rw [htc] at hbg
      rw [← hfe]
      simpa using hbg
    | none =>
      rw [htc] at h
      have hemp : emptyCW ((all_criteria.foldl
          (pass2Step (buildMatches (unflagged inventory) all_criteria)
            (idToSerial (unflagged inventory)))
          { allocation_success := true, allocated := ∅, allocated_serials := ∅,
            cs := (all_criteria.foldl
              (pass1Step (buildMatches (unflagged inventory) all_criteria))
              { cs := [], ts := [] }).cs,
            ts := (all_criteria.foldl
              (pass1Step (buildMatches (unflagged inventory) all_criteria))
              { cs := [], ts := [] }).ts }).ts) := by
        refine pass2_fold_emptyCW _ _ _ _ ?_
        refine pass1_fold_emptyCW _ _ _ ?_
        intro p hp
        cases hp
      have hcw : e.conflicts_with = ∅ := hemp (t, e) (dictGet?_some_mem h)
      have hbg := buildTradeConflicts_get
        (pairLoop (buildMatches (unflagged inventory) all_criteria) all_criteria) t
      rw [htc] at hbg
      simp only [Option.getD_none, List.toFinset_nil] at hbg
      rw [hcw, ← hbg]

instance : IsTotal Crit critIdLe := by
  constructor
  intro a b
  unfold critIdLe
  omega

instance : IsTrans Crit critIdLe := by
  constructor
  intro a b c
  unfold critIdLe
  omega

/-- Per-row effect of the negative-delta loop of
`update_criteria_quantity`: walks the (sorted) selection, tracking the
remaining amount, and reports what happens to a row with the given id —
untouched, updated, or deleted.  Analysis device for the proofs. -/
def rowAction : List Crit → Int → Crit → Option Crit
  | [], _, x => some x
  | crit :: rest, k, x =>
    if k ≤ 0 then some x
    else if 0 < crit.quantity_required then
      if x.id = crit.id then
        (if crit.quantity_required - min crit.quantity_required k ≤ 0 then none
         else some { x with quantity_required :=
           crit.quantity_required - min crit.quantity_required k })
      else rowAction rest (k - min crit.quantity_required k) x
    else rowAction rest k x

/-- Sum of the required quantities of the trade's active criteria with a
smaller id than `c` — the amount the greedy loop consumes before it
reaches `c`. -/
def priorQty (reg : List Crit) (tid : String) (c : Crit) : Int :=
  (((reg.filter (critRowMatch tid)).filter
    (fun r => decide (r.id < c.id))).map (·.quantity_required)).sum

lemma reduceLoop_stall (sel : List Crit) :
    ∀ (reg : List Crit) (k : Int), k ≤ 0 →
      sel.foldl reduceStep (reg, k) = (reg, k) := by
  induction sel with
  | nil => intro reg k _; rfl
  | cons crit rest ih =>
    intro reg k hk
    rw [List.foldl_cons]
    have hstep : reduceStep (reg, k) crit = (reg, k) := by
      unfold reduceStep
      rw [if_pos hk]
    rw [hstep]
    exact ih reg k hk

lemma rowAction_cons (crit : Crit) (rest : List Crit) (k : Int) (x : Crit) :
    rowAction (crit :: rest) k x =
      (if k ≤ 0 then some x
       else if 0 < crit.quantity_required then
         if x.id = crit.id then
           (if crit.quantity_required - min crit.quantity_required k ≤ 0 then none
            else some { x with quantity_required :=
              crit.quantity_required - min crit.quantity_required k })
         else rowAction rest (k - min crit.quantity_required k) x
       else rowAction rest k x) := rfl

lemma rowAction_of_not_mem (sel : List Crit) :
    ∀ (k : Int) (x : Crit), (∀ c ∈ sel, c.id ≠ x.id) →
      rowAction sel k x = some x := by
  induction sel with
  | nil => intro k x _; rfl
  | cons crit rest ih =>
    intro k x hx
    rw [rowAction_cons]
    split_ifs with h1 h2 h3 h4
    · rfl
    · exact absurd h3.symm (hx crit (List.mem_cons_self _ _))
    · exact absurd h3.symm (hx crit (List.mem_cons_self _ _))
    · exact ih _ x (fun c hc => hx c (List.mem_cons_of_mem _ hc))
    · exact ih _ x (fun c hc => hx c (List.mem_cons_of_mem _ hc))

lemma reduceLoop_eq_filterMap (sel : List Crit) :
    (sel.map (·.id)).Nodup →
    ∀ (reg : List Crit) (k : Int),
      (sel.foldl reduceStep (reg, k)).1 = reg.filterMap (rowAction sel k) := by
  induction sel with
  | nil =>
    intro _ reg k
    exact ((List.filterMap_congr fun x _ => rfl).trans (List.filterMap_some reg)).symm
  | cons crit rest ih =>
    intro hnd reg k
    have hcid : crit.id ∉ rest.map (·.id) := (List.nodup_cons.mp (by simpa using hnd)).1
    have hrestnd : (rest.map (·.id)).Nodup := (List.nodup_cons.mp (by simpa using hnd)).2
    rw [List.foldl_cons]
    by_cases hk : k ≤ 0
    · have hstep : reduceStep (reg, k) crit = (reg, k) := by
        unfold reduceStep
        rw [if_pos hk]
      rw [hstep, reduceLoop_stall rest reg k hk]
      refine ((List.filterMap_congr fun x _ => ?_).trans (List.filterMap_some reg)).symm
      rw [rowAction_cons, if_pos hk]
    · by_cases hq : 0 < crit.quantity_required
      · by_cases hdel : crit.quantity_required - min crit.quantity_required k ≤ 0
        · have hstep : reduceStep (reg, k) crit =
              (reg.filter fun x => decide (x.id ≠ crit.id),
               k - min crit.quantity_required k) := by
            unfold reduceStep
            rw [if_neg hk]
            dsimp only
            rw [if_pos hq, if_pos hdel]
          rw [hstep, ih hrestnd, List.filterMap_filter]
          refine List.filterMap_congr fun x _ => ?_
          by_cases hx : x.id = crit.id
          · rw [if_neg (by simp [hx] : ¬ (decide (x.id ≠ crit.id)) = true)]
            rw [rowAction_cons, if_neg hk, if_pos hq, if_pos hx, if_pos hdel]
          · rw [if_pos (by simp [hx] : (decide (x.id ≠ crit.id)) = true)]
            rw [rowAction_cons, if_neg hk, if_pos hq, if_neg hx]
        · have hstep : reduceStep (reg, k) crit =
              (reg.map (fun x => if x.id = crit.id then
                { x with quantity_required :=
                  crit.quantity_required - min crit.quantity_required k } else x),
               k - min crit.quantity_required k) := by
            unfold reduceStep
            rw [if_neg hk]
            dsimp only
            rw [if_pos hq, if_neg hdel]
          have hpt : ∀ x : Crit,
              rowAction rest (k - min crit.quantity_required k)
                (if x.id = crit.id then
                  { x with quantity_required :=
                    crit.quantity_required - min crit.quantity_required k } else x) =
              rowAction (crit :: rest) k x := by
            intro x
            by_cases hx : x.id = crit.id
            · rw [if_pos hx]
              rw [rowAction_of_not_mem rest (k - min crit.quantity_required k)
                { x with quantity_required :=
                  crit.quantity_required - min crit.quantity_required k }
                (fun c hc hcx => hcid
                  (List.mem_map.mpr ⟨c, hc, show c.id = crit.id from hcx.trans hx⟩))]
              rw [rowAction_cons, if_neg hk, if_pos hq, if_pos hx, if_neg hdel]
            · rw [if_neg hx]
              rw [rowAction_cons, if_neg hk, if_pos hq, if_neg hx]
          rw [hstep, ih hrestnd, List.filterMap_map]
          exact List.filterMap_congr fun x _ => hpt x
      · have hstep : reduceStep (reg, k) crit = (reg, k) := by
          unfold reduceStep
          rw [if_neg hk]
          dsimp only
          rw [if_neg hq]
        rw [hstep, ih hrestnd]
        refine List.filterMap_congr fun x _ => ?_
        rw [rowAction_cons, if_neg hk, if_neg hq]

lemma rowAction_mem_closed (sel : List Crit) :
    List.Sorted critIdLe sel → (sel.map (·.id)).Nodup →
    (∀ c ∈ sel, 0 < c.quantity_required) →
    ∀ (k : Int), 0 ≤ k → ∀ crit ∈ sel,
      rowAction sel k crit =
        (if crit.quantity_required ≤
            max 0 (k - ((sel.filter (fun r => decide (r.id < crit.id))).map
              (·.quantity_required)).sum) then none
         else some { crit with quantity_required :=
                       (crit.quantity_required -
                         max 0 (k - ((sel.filter (fun r => decide (r.id < crit.id))).map
                           (·.quantity_required)).sum)) }) := by
  induction sel with
  | nil => intro _ _ _ k _ crit hcrit; cases hcrit
  | cons c rest ih =>
    intro hsort hnd hpos k hk crit hcrit
    have hc_le : ∀ r ∈ rest, c.id ≤ r.id :=
      fun r hr => (List.sorted_cons.mp hsort).1 r hr
    have hsort' : List.Sorted critIdLe rest := (List.sorted_cons.mp hsort).2
    have hcid : c.id ∉ rest.map (·.id) := (List.nodup_cons.mp (by simpa using hnd)).1
    have hndrest : (rest.map (·.id)).Nodup := (List.nodup_cons.mp (by simpa using hnd)).2
    have hposrest : ∀ x ∈ rest, 0 < x.quantity_required :=
      fun x hx => hpos x (List.mem_cons_of_mem _ hx)
    have hqc : 0 < c.quantity_required := hpos c (List.mem_cons_self _ _)
    rcases List.mem_cons.mp hcrit with hcc | hmem
    · subst hcc
      have hfil : (crit :: rest).filter (fun r => decide (r.id < crit.id)) = [] := by
        rw [List.filter_cons_of_neg (by simp)]
        rw [List.filter_eq_nil_iff]
        intro r hr
        have := hc_le r hr
        simp only [decide_eq_true_eq]
        omega
      rw [hfil]
      simp only [List.map_nil, List.sum_nil]
      rw [rowAction_cons]
      by_cases hk0 : k ≤ 0
      · have hk' : k = 0 := le_antisymm hk0 hk
        subst hk'
        rw [if_pos (le_refl (0 : Int)), if_neg (by omega)]
        have harith : crit.quantity_required - max 0 ((0 : Int) - 0) =
            crit.quantity_required := by omega
        rw [harith]
      · rw [if_neg hk0, if_pos hqc, if_pos rfl]
        by_cases hle : crit.quantity_required ≤ k
        · rw [if_pos (by omega), if_pos (by omega)]
        · rw [if_neg (by omega), if_neg (by omega)]
          have harith : crit.quantity_required - min crit.quantity_required k =
              crit.quantity_required - max 0 (k - 0) := by omega
          rw [harith]
    · have hne : crit.id ≠ c.id := by
        intro he
        exact hcid (he ▸ List.mem_map_of_mem _ hmem)
      have hlt : c.id < crit.id := by
        have := hc_le crit hmem
        omega
      have hqcrit : 0 < crit.quantity_required := hposrest crit hmem
      have hfil : (c :: rest).filter (fun r => decide (r.id < crit.id)) =
          c :: rest.filter (fun r => decide (r.id < crit.id)) :=
        List.filter_cons_of_pos (by simpa using hlt)
      rw [hfil]
      simp only [List.map_cons, List.sum_cons]
      have hprior : 0 ≤ ((rest.filter (fun r => decide (r.id < crit.id))).map
          (·.quantity_required)).sum := by
        refine List.sum_nonneg fun q hq' => ?_
        rcases List.mem_map.mp hq' with ⟨r, hr, rfl⟩
        exact le_of_lt (hposrest r (List.mem_of_mem_filter hr))
      rw [rowAction_cons]
      by_cases hk0 : k ≤ 0
      · have hk' : k = 0 := le_antisymm hk0 hk
        subst hk'
        rw [if_pos (le_refl (0 : Int)), if_neg (by omega)]
        have harith : crit.quantity_required -
            max 0 ((0 : Int) - (c.quantity_required +
              ((rest.filter (fun r => decide (r.id < crit.id))).map
                (·.quantity_required)).sum)) = crit.quantity_required := by omega
        rw [harith]
      · rw [if_neg hk0, if_pos hqc, if_neg hne]
        rw [ih hsort' hndrest hposrest (k - min c.quantity_required k) (by omega)
          crit hmem]
        have harith : max 0 (k - min c.quantity_required k -
            ((rest.filter (fun r => decide (r.id < crit.id))).map
              (·.quantity_required)).sum) =
            max 0 (k - (c.quantity_required +
              ((rest.filter (fun r => decide (r.id < crit.id))).map
                (·.quantity_required)).sum)) := by omega
        rw [harith]

/-- C7.  Greedy FIFO decrement: with no specific criteria id,
`update_criteria_quantity` consumes a negative delta from the trade's
active criteria in ascending-id (oldest-first) order — each row ends
with its quantity reduced by whatever of the count is left after all of
the trade's smaller-id criteria absorbed theirs (`priorQty`), and is
deleted when that reaches or passes zero; rows of other trades or other
statuses are untouched.  With a specific criteria id,
`update_specific_criteria_quantity` adjusts only that row, deleting it
when the new quantity is not positive, and is a no-op when no active row
has that id. -/
theorem c7_greedy_fifo_decrement (reg : List Crit) (tid : String) (delta : Int)
    (cid : Nat) (delta2 : Int)
    (hids : (reg.map (·.id)).Nodup)
    (hpos : ∀ c ∈ reg, 0 < c.quantity_required)
    (hneg : delta < 0) :
    (update_criteria_quantity reg tid delta =
      reg.filterMap (fun c =>
        if critRowMatch tid c then
          (if c.quantity_required ≤ max 0 (-delta - priorQty reg tid c) then none
           else some { c with quantity_required :=
                         (c.quantity_required -
                           max 0 (-delta - priorQty reg tid c)) })
        else some c)) ∧
    (∀ c0 ∈ reg, c0.id = cid → c0.status = "criteria_only" →
      update_specific_criteria_quantity reg cid delta2 =
        (if c0.quantity_required + delta2 ≤ 0 then
          reg.filter (fun x => decide (x.id ≠ cid))
         else reg.map (fun x => if x.id = cid then
           { x with quantity_required := (c0.quantity_required + delta2) } else x))) ∧
    ((∀ c ∈ reg, ¬(c.id = cid ∧ c.status = "criteria_only")) →
      update_specific_criteria_quantity reg cid delta2 = reg) := by
  refine ⟨?_, ?_, ?_⟩
  · unfold update_criteria_quantity
    dsimp only
    by_cases hemp : (List.insertionSort critIdLe (reg.filter (critRowMatch tid))).isEmpty
    · rw [if_pos hemp]
      have hperm := List.perm_insertionSort critIdLe (reg.filter (critRowMatch tid))
      have hnil : List.insertionSort critIdLe (reg.filter (critRowMatch tid)) = [] :=
        List.isEmpty_iff.mp hemp
      rw [hnil] at hperm
      have hfe : reg.filter (critRowMatch tid) = [] := (List.Perm.nil_eq hperm).symm
      refine ((List.filterMap_congr fun c hc => ?_).trans (List.filterMap_some reg)).symm
      have hcm : ¬ critRowMatch tid c = true := by
        intro hm
        have hmem : c ∈ reg.filter (critRowMatch tid) := List.mem_filter.mpr ⟨hc, hm⟩
        rw [hfe] at hmem
        cases hmem
      rw [if_neg hcm]
    · rw [if_neg hemp, if_pos hneg]
      have hperm := List.perm_insertionSort critIdLe (reg.filter (critRowMatch tid))
      have hselnd : ((List.insertionSort critIdLe
          (reg.filter (critRowMatch tid))).map (·.id)).Nodup :=
        ((hperm.map (·.id)).nodup_iff).mpr
          (List.Nodup.sublist ((List.filter_sublist reg).map _) hids)
      rw [reduceLoop_eq_filterMap _ hselnd reg (-delta)]
      refine List.filterMap_congr fun c hc => ?_
      by_cases hcm : critRowMatch tid c = true
      · have hcsel : c ∈ List.insertionSort critIdLe (reg.filter (critRowMatch tid)) :=
          hperm.mem_iff.mpr (List.mem_filter.mpr ⟨hc, hcm⟩)
        rw [rowAction_mem_closed _ (List.sorted_insertionSort _ _) hselnd
          (fun x hx => hpos x (List.mem_of_mem_filter (hperm.mem_iff.mp hx)))
          (-delta) (by omega) c hcsel]
        rw [if_pos hcm]
        have hsum : (((List.insertionSort critIdLe (reg.filter (critRowMatch tid))).filter
            (fun r => decide (r.id < c.id))).map (·.quantity_required)).sum =
            priorQty reg tid c := by
          unfold priorQty
          exact ((hperm.filter _).map _).sum_eq
        rw [hsum]
      · rw [if_neg hcm]
        refine rowAction_of_not_mem _ _ _ fun y hy hyid => ?_
        have hyf : y ∈ reg.filter (critRowMatch tid) := hperm.mem_iff.mp hy
        have hym : critRowMatch tid y = true := (List.mem_filter.mp hyf).2
        have hyc : y = c :=
          List.inj_on_of_nodup_map hids (List.mem_of_mem_filter hyf) hc hyid
        rw [hyc] at hym
        exact hcm hym
  · intro c0 hc0 hcid0 hstat
    cases hfind : reg.find? (fun c => decide (c.id = cid) &&
        decide (c.status = "criteria_only")) with
    | none =>
      exfalso
      rw [List.find?_eq_none] at hfind
      have := hfind c0 hc0
      simp [hcid0, hstat] at this
    | some c1 =>
      have hc1m : c1 ∈ reg := List.mem_of_find?_eq_some hfind
      have hc1p := List.find?_some hfind
      have hc1id : c1.id = cid := by
        simp only [Bool.and_eq_true, decide_eq_true_eq] at hc1p
        exact hc1p.1
      have hc1c0 : c1 = c0 :=
        List.inj_on_of_nodup_map hids hc1m hc0 (by rw [hc1id, hcid0])
      unfold update_specific_criteria_quantity
      rw [hfind, hc1c0]
  · intro hno
    cases hfind : reg.find? (fun c => decide (c.id = cid) &&
        decide (c.status = "criteria_only")) with
    | some c1 =>
      exfalso
      have hc1m : c1 ∈ reg := List.mem_of_find?_eq_some hfind
      have hc1p := List.find?_some hfind
      simp only [Bool.and_eq_true, decide_eq_true_eq] at hc1p
      exact hno c1 hc1m hc1p
    | none =>
      unfold update_specific_criteria_quantity
      rw [hfind]

/-- Concrete three-row registry (two criteria of trade `T` out of id
order, one of trade `U`) for the C7 witness. -/
def c7Reg : List Crit :=
  [ { blankCrit with id := 2, trade_id := "T", quantity_required := 3 },
    { blankCrit with id := 1, trade_id := "T", quantity_required := 5 },
    { blankCrit with id := 3, trade_id := "U", quantity_required := 7 } ]

/-- C7 witness: decrement 6 against trade `T` (consumes all of id 1 and
one unit of id 2). -/
theorem c7_greedy_fifo_decrement_witness :
    ((c7Reg.map (·.id)).Nodup ∧ (∀ c ∈ c7Reg, 0 < c.quantity_required) ∧
      ((-6 : Int) < 0)) ∧
    update_criteria_quantity c7Reg "T" (-6) =
      c7Reg.filterMap (fun c =>
        if critRowMatch "T" c then
          (if c.quantity_required ≤ max 0 (-(-6) - priorQty c7Reg "T" c) then none
           else some { c with quantity_required :=
                         (c.quantity_required -
                           max 0 (-(-6) - priorQty c7Reg "T" c)) })
        else some c) :=
  ⟨⟨by decide, by decide, by decide⟩,
    (c7_greedy_fifo_decrement c7Reg "T" (-6) 3 (-7) (by decide) (by decide)
      (by decide)).1⟩

/-- Status of one criteria in the optimizer's returned `criteria_status`
dict. -/
def critStatusOf (res : AllocResult) (cid : Nat) : Option String :=
  (dictGet? (res.criteria_status.getD []) cid).map (·.status)

lemma claimsStep_allocated_mono (m : List Item) (st : ClaimsState) (c : Crit) :
    st.allocated_ids ⊆ (claimsStep m st c).allocated_ids := by
  unfold claimsStep
  dsimp only
  split_ifs
  · exact Finset.subset_union_left
  · exact Finset.Subset.refl _

lemma claims_fold_allocated_mono (m : List Item) (l : List Crit) :
    ∀ (st : ClaimsState),
      st.allocated_ids ⊆ (l.foldl (claimsStep m) st).allocated_ids := by
  induction l with
  | nil => intro st; exact Finset.Subset.refl _
  | cons c rest ih =>
    intro st
    exact (claimsStep_allocated_mono m st c).trans (ih (claimsStep m st c))

lemma claims_fold_claims_mono (m : List Item) (l : List Crit) :
    ∀ (st : ClaimsState) (e : ClaimEntry), e ∈ st.criteria_claims →
      e ∈ (l.foldl (claimsStep m) st).criteria_claims := by
  induction l with
  | nil => intro st e he; exact he
  | cons c rest ih =>
    intro st e he
    refine ih (claimsStep m st c) e ?_
    unfold claimsStep
    dsimp only
    split_ifs
    · exact List.mem_append_left _ he
    · exact he

lemma claimsStep_claims_id (m : List Item) (st : ClaimsState) (c : Crit) :
    ∀ e ∈ (claimsStep m st c).criteria_claims,
      e ∈ st.criteria_claims ∨ e.criteria_id = c.id := by
  unfold claimsStep
  dsimp only
  split_ifs
  · intro e he
    rcases List.mem_append.mp he with h | h
    · exact Or.inl h
    · rw [List.mem_singleton] at h
      subst h
      exact Or.inr rfl
  · intro e he
    exact Or.inl he

lemma claims_fold_no_id (m : List Item) (l : List Crit) (bid : Nat) :
    (∀ c ∈ l, c.id ≠ bid) →
    ∀ (st : ClaimsState), (∀ e ∈ st.criteria_claims, e.criteria_id ≠ bid) →
      ∀ e ∈ (l.foldl (claimsStep m) st).criteria_claims, e.criteria_id ≠ bid := by
  induction l with
  | nil => intro _ st h e he; exact h e he
  | cons c rest ih =>
    intro hl st hst e he
    refine ih (fun d hd => hl d (List.mem_cons_of_mem _ hd)) (claimsStep m st c)
      ?_ e he
    intro e' he'
    rcases claimsStep_claims_id m st c e' he' with h | h
    · exact hst e' h
    · rw [h]
      exact hl c (List.mem_cons_self _ _)

lemma claimsStep_full_entry (m : List Item) (st : ClaimsState) (A : Crit)
    (hqA : 1 ≤ A.quantity_required)
    (hge : A.quantity_required ≤
      (((m.filter fun item => decide (item.id ∉ st.allocated_ids) &&
        check_inventory_matches_criteria item A).map (·.id)).length : Int)) :
    ∃ e ∈ (claimsStep m st A).criteria_claims,
      e.criteria_id = A.id ∧ e.quantity_claimed = A.quantity_required := by
  unfold claimsStep
  dsimp only
  rw [if_pos (by omega)]
  refine ⟨_, List.mem_append_right _ (List.mem_singleton_self _), rfl, ?_⟩
  dsimp only
  omega

lemma claimsStep_underfull_allocated (m : List Item) (st : ClaimsState) (A : Crit)
    (hqA : 1 ≤ A.quantity_required)
    (hlt : (((m.filter fun item => decide (item.id ∉ st.allocated_ids) &&
        check_inventory_matches_criteria item A).map (·.id)).length : Int) <
      A.quantity_required) :
    ∀ item ∈ m, check_inventory_matches_criteria item A = true →
      item.id ∈ (claimsStep m st A).allocated_ids := by
  intro item him hchk
  by_cases hin : item.id ∈ st.allocated_ids
  · exact claimsStep_allocated_mono m st A hin
  · have hidmfc : item.id ∈ ((m.filter fun it => decide (it.id ∉ st.allocated_ids) &&
        check_inventory_matches_criteria it A).map (·.id)) :=
      List.mem_map_of_mem _ (List.mem_filter.mpr ⟨him, by simp [hin, hchk]⟩)
    have hlen : 0 < ((m.filter fun it => decide (it.id ∉ st.allocated_ids) &&
        check_inventory_matches_criteria it A).map (·.id)).length :=
      List.length_pos.mpr (List.ne_nil_of_mem hidmfc)
    unfold claimsStep
    dsimp only
    rw [if_pos (by omega)]
    have htake : (min A.quantity_required
        ((((m.filter fun it => decide (it.id ∉ st.allocated_ids) &&
          check_inventory_matches_criteria it A).map (·.id)).length : Nat) : Int)).toNat =
        ((m.filter fun it => decide (it.id ∉ st.allocated_ids) &&
          check_inventory_matches_criteria it A).map (·.id)).length := by
      omega
    rw [htake, List.take_length]
    exact Finset.mem_union_right _ (List.mem_toFinset.mpr hidmfc)

lemma claimsStep_noop (m : List Item) (st : ClaimsState) (c : Crit)
    (h : (m.filter fun it => decide (it.id ∉ st.allocated_ids) &&
      check_inventory_matches_criteria it c) = []) :
    claimsStep m st c = st := by
  unfold claimsStep
  dsimp only
  rw [h]
  rw [if_neg (by simp)]

lemma claims_priority (m : List Item) (A B : Crit) (l1 l2 l3 : List Crit)
    (hndB1 : ∀ c ∈ l1, c.id ≠ B.id) (hndAB : A.id ≠ B.id)
    (hndB2 : ∀ c ∈ l2, c.id ≠ B.id) (hndB3 : ∀ c ∈ l3, c.id ≠ B.id)
    (hqA : 1 ≤ A.quantity_required) (hqB : 1 ≤ B.quantity_required)
    (hsub : ∀ it : Item, check_inventory_matches_criteria it B = true →
      check_inventory_matches_criteria it A = true)
    (hnotfull : ∀ e ∈ ((l1 ++ A :: (l2 ++ B :: l3)).foldl (claimsStep m)
        { allocated_ids := ∅, item_claims := [], criteria_claims := [] }).criteria_claims,
      ¬(e.criteria_id = A.id ∧ e.quantity_claimed = A.quantity_required)) :
    ∀ e ∈ ((l1 ++ A :: (l2 ++ B :: l3)).foldl (claimsStep m)
        { allocated_ids := ∅, item_claims := [], criteria_claims := [] }).criteria_claims,
      e.criteria_id ≠ B.id := by
  have hfold : (l1 ++ A :: (l2 ++ B :: l3)).foldl (claimsStep m)
      { allocated_ids := ∅, item_claims := [], criteria_claims := [] } =
      (l2 ++ B :: l3).foldl (claimsStep m)
        (claimsStep m ((l1.foldl (claimsStep m)
          { allocated_ids := ∅, item_claims := [], criteria_claims := [] })) A) := by
    rw [List.foldl_append, List.foldl_cons]
  intro e he
  rw [hfold] at he hnotfull
  by_cases hge : A.quantity_required ≤
      ((((m.filter fun item => decide (item.id ∉ (l1.foldl (claimsStep m)
        { allocated_ids := ∅, item_claims := [], criteria_claims := [] }).allocated_ids) &&
        check_inventory_matches_criteria item A).map (·.id)).length : Int))
  · exfalso
    obtain ⟨e', he', hid', hq'⟩ := claimsStep_full_entry m _ A hqA hge
    exact hnotfull e' (claims_fold_claims_mono m _ _ e' he') ⟨hid', hq'⟩
  · have hallocA := claimsStep_underfull_allocated m
      (l1.foldl (claimsStep m)
        { allocated_ids := ∅, item_claims := [], criteria_claims := [] })
      A hqA (by omega)
    have hBfold : (l2 ++ B :: l3).foldl (claimsStep m)
        (claimsStep m ((l1.foldl (claimsStep m)
          { allocated_ids := ∅, item_claims := [], criteria_claims := [] })) A) =
        l3.foldl (claimsStep m)
          (claimsStep m (l2.foldl (claimsStep m)
            (claimsStep m ((l1.foldl (claimsStep m)
              { allocated_ids := ∅, item_claims := [], criteria_claims := [] })) A)) B) := by
      rw [List.foldl_append, List.foldl_cons]
    rw [hBfold] at he
    have hmfcB : (m.filter fun it =>
        decide (it.id ∉ (l2.foldl (claimsStep m)
          (claimsStep m ((l1.foldl (claimsStep m)
            { allocated_ids := ∅, item_claims := [], criteria_claims := [] })) A)).allocated_ids) &&
        check_inventory_matches_criteria it B) = [] := by
      rw [List.filter_eq_nil_iff]
      intro it hit
      simp only [Bool.and_eq_true, decide_eq_true_eq, not_and]
      intro hnotin
      intro hchkB
      exact hnotin (claims_fold_allocated_mono m l2 _ (hallocA it hit (hsub it hchkB)))
    rw [claimsStep_noop m _ B hmfcB] at he
    refine claims_fold_no_id m l3 B.id hndB3 _ ?_ e he
    refine claims_fold_no_id m l2 B.id hndB2 _ ?_
    intro e' he'
    rcases claimsStep_claims_id m _ A e' he' with h | h
    · refine claims_fold_no_id m l1 B.id hndB1 _ ?_ e' h
      intro e'' he''
      cases he''
    · rw [h]
      exact hndAB

lemma pass2Step_allocated_mono (cm : List (Nat × List Nat))
    (i2s : Nat → Option String) (st : Pass2State) (c : Crit) :
    st.allocated ⊆ (pass2Step cm i2s st c).allocated := by
  unfold pass2Step
  dsimp only
  split_ifs <;> exact Finset.subset_union_left

lemma pass2_fold_allocated_mono (cm : List (Nat × List Nat))
    (i2s : Nat → Option String) (l : List Crit) :
    ∀ (st : Pass2State), st.allocated ⊆ (l.foldl (pass2Step cm i2s) st).allocated := by
  induction l with
  | nil => intro st; exact Finset.Subset.refl _
  | cons c rest ih =>
    intro st
    exact (pass2Step_allocated_mono cm i2s st c).trans (ih (pass2Step cm i2s st c))

lemma pass2Step_conflict_allocated (cm : List (Nat × List Nat))
    (i2s : Nat → Option String) (st : Pass2State) (c : Crit)
    (hlt : ¬ ((((matchesOf cm c.id).filter fun i =>
      decide (i ∉ st.allocated)).length : Int) ≥ c.quantity_required)) :
    ∀ x ∈ matchesOf cm c.id, x ∈ (pass2Step cm i2s st c).allocated := by
  intro x hx
  unfold pass2Step
  dsimp only
  rw [if_neg hlt]
  by_cases hin : x ∈ st.allocated
  · exact Finset.mem_union_left _ hin
  · exact Finset.mem_union_right _
      (List.mem_toFinset.mpr (List.mem_filter.mpr ⟨hx, by simpa using hin⟩))

lemma pass2Step_cs_other (cm : List (Nat × List Nat)) (i2s : Nat → Option String)
    (st : Pass2State) (c : Crit) (k : Nat) (hk : k ≠ c.id) :
    dictGet? (pass2Step cm i2s st c).cs k = dictGet? st.cs k := by
  unfold pass2Step
  dsimp only
  split_ifs <;> exact dictGet?_upd_other _ _ _ _ hk

lemma pass2_fold_cs_other (cm : List (Nat × List Nat)) (i2s : Nat → Option String)
    (l : List Crit) (k : Nat) (hk : ∀ c ∈ l, k ≠ c.id) :
    ∀ (st : Pass2State), dictGet? (l.foldl (pass2Step cm i2s) st).cs k =
      dictGet? st.cs k := by
  induction l with
  | nil => intro st; rfl
  | cons c rest ih =>
    intro st
    rw [List.foldl_cons, ih (fun d hd => hk d (List.mem_cons_of_mem _ hd))]
    exact pass2Step_cs_other cm i2s st c k (hk c (List.mem_cons_self _ _))

lemma pass2_fold_presence (cm : List (Nat × List Nat)) (i2s : Nat → Option String)
    (l : List Crit) :
    ∀ (st : Pass2State) (k : Nat), (dictGet? st.cs k).isSome →
      (dictGet? (l.foldl (pass2Step cm i2s) st).cs k).isSome := by
  induction l with
  | nil => intro st k h; exact h
  | cons c rest ih =>
    intro st k h
    exact ih (pass2Step cm i2s st c) k (pass2Step_presence cm i2s st c k h)

lemma pass2Step_cs_self_status_ge (cm : List (Nat × List Nat))
    (i2s : Nat → Option String) (st : Pass2State) (c : Crit)
    (hge : (((matchesOf cm c.id).filter fun i =>
      decide (i ∉ st.allocated)).length : Int) ≥ c.quantity_required) :
    (dictGet? (pass2Step cm i2s st c).cs c.id).map (·.status) =
      (dictGet? st.cs c.id).map (·.status) := by
  unfold pass2Step
  dsimp only
  rw [if_pos hge]
  dsimp only
  rw [dictGet?_upd_self]
  cases dictGet? st.cs c.id <;> rfl

lemma pass2Step_cs_self_status_lt (cm : List (Nat × List Nat))
    (i2s : Nat → Option String) (st : Pass2State) (c : Crit)
    (hlt : ¬ ((((matchesOf cm c.id).filter fun i =>
      decide (i ∉ st.allocated)).length : Int) ≥ c.quantity_required))
    (hkey : (dictGet? st.cs c.id).isSome) :
    (dictGet? (pass2Step cm i2s st c).cs c.id).map (·.status) = some "conflict" := by
  unfold pass2Step
  dsimp only
  rw [if_neg hlt]
  dsimp only
  rw [dictGet?_upd_self]
  obtain ⟨v, hv⟩ := Option.isSome_iff_exists.mp hkey
  rw [hv]
  rfl

lemma alloc_priority (cm : List (Nat × List Nat)) (i2s : Nat → Option String)
    (A B : Crit) (l1 l2 l3 : List Crit) (st0 : Pass2State)
    (hnc : noConflict st0.cs)
    (hBkey : (dictGet? st0.cs B.id).isSome)
    (hA1 : ∀ c ∈ l1, A.id ≠ c.id) (hA2 : ∀ c ∈ l2, A.id ≠ c.id)
    (hA3 : ∀ c ∈ l3, A.id ≠ c.id) (hAB : A.id ≠ B.id)
    (hB3 : ∀ c ∈ l3, B.id ≠ c.id)
    (hqB : 1 ≤ B.quantity_required)
    (hsubM : ∀ x ∈ matchesOf cm B.id, x ∈ matchesOf cm A.id)
    (hconf : (dictGet? ((l1 ++ A :: (l2 ++ B :: l3)).foldl (pass2Step cm i2s)
        st0).cs A.id).map (·.status) = some "conflict") :
    (dictGet? ((l1 ++ A :: (l2 ++ B :: l3)).foldl (pass2Step cm i2s)
        st0).cs B.id).map (·.status) = some "conflict" := by
  have hfold : (l1 ++ A :: (l2 ++ B :: l3)).foldl (pass2Step cm i2s) st0 =
      l3.foldl (pass2Step cm i2s)
        (pass2Step cm i2s
          (l2.foldl (pass2Step cm i2s)
            (pass2Step cm i2s (l1.foldl (pass2Step cm i2s) st0) A))
          B) := by
    rw [List.foldl_append, List.foldl_cons, List.foldl_append, List.foldl_cons]
  rw [hfold] at hconf ⊢
  have hAfinal : (dictGet? (l3.foldl (pass2Step cm i2s)
      (pass2Step cm i2s
        (l2.foldl (pass2Step cm i2s)
          (pass2Step cm i2s (l1.foldl (pass2Step cm i2s) st0) A))
        B)).cs A.id).map (·.status) =
      (dictGet? (pass2Step cm i2s (l1.foldl (pass2Step cm i2s) st0) A).cs
        A.id).map (·.status) := by
    rw [pass2_fold_cs_other cm i2s l3 A.id hA3,
      pass2Step_cs_other cm i2s _ B A.id hAB,
      pass2_fold_cs_other cm i2s l2 A.id hA2]
  rw [hAfinal] at hconf
  by_cases hgeA : (((matchesOf cm A.id).filter fun i =>
      decide (i ∉ (l1.foldl (pass2Step cm i2s) st0).allocated)).length : Int) ≥
      A.quantity_required
  · exfalso
    rw [pass2Step_cs_self_status_ge cm i2s _ A hgeA,
      pass2_fold_cs_other cm i2s l1 A.id hA1] at hconf
    cases hv : dictGet? st0.cs A.id with
    | none => rw [hv] at hconf; cases hconf
    | some v =>
      rw [hv] at hconf
      have : v.status = "conflict" := by
        simpa using hconf
      exact hnc (A.id, v) (dictGet?_some_mem hv) this
  · have hallocA := pass2Step_conflict_allocated cm i2s
      (l1.foldl (pass2Step cm i2s) st0) A hgeA
    have hBavail : ((matchesOf cm B.id).filter fun i =>
        decide (i ∉ (l2.foldl (pass2Step cm i2s)
          (pass2Step cm i2s (l1.foldl (pass2Step cm i2s) st0) A)).allocated)) = [] := by
      rw [List.filter_eq_nil_iff]
      intro x hx
      simp only [decide_eq_true_eq, not_not]
      exact pass2_fold_allocated_mono cm i2s l2 _ (hallocA x (hsubM x hx))
    have hltB : ¬ ((((matchesOf cm B.id).filter fun i =>
        decide (i ∉ (l2.foldl (pass2Step cm i2s)
          (pass2Step cm i2s (l1.foldl (pass2Step cm i2s) st0) A)).allocated)).length : Int) ≥
        B.quantity_required) := by
      rw [hBavail]
      simp only [List.length_nil, Nat.cast_zero]
      omega
    have hBkeyB : (dictGet? (l2.foldl (pass2Step cm i2s)
        (pass2Step cm i2s (l1.foldl (pass2Step cm i2s) st0) A)).cs B.id).isSome := by
      refine pass2_fold_presence cm i2s l2 _ B.id ?_
      refine pass2Step_presence cm i2s _ A B.id ?_
      exact pass2_fold_presence cm i2s l1 st0 B.id hBkey
    rw [pass2_fold_cs_other cm i2s l3 B.id hB3]
    exact pass2Step_cs_self_status_lt cm i2s _ B hltB hBkeyB

lemma bm_fold_get_other (inv : List Item) (crits : List Crit) (k : Nat)
    (hk : ∀ c ∈ crits, k ≠ c.id) :
    ∀ (m : List (Nat × List Nat)),
      dictGet? (crits.foldl (bmStep inv) m) k = dictGet? m k := by
  induction crits with
  | nil => intro m; rfl
  | cons c rest ih =>
    intro m
    rw [List.foldl_cons, ih (fun d hd => hk d (List.mem_cons_of_mem _ hd))]
    exact dictGet?_insert_other _ _ _ _ (hk c (List.mem_cons_self _ _))

lemma bm_fold_get_mem (inv : List Item) (crits : List Crit) :
    ∀ (m : List (Nat × List Nat)) (c : Crit), c ∈ crits →
      ((crits.map (·.id)).Nodup) →
      dictGet? (crits.foldl (bmStep inv) m) c.id =
        some ((inv.filter fun item =>
          check_inventory_matches_criteria item c).map (·.id)) := by
  induction crits with
  | nil => intro m c hc; cases hc
  | cons d rest ih =>
    intro m c hc hnd
    have hdid : d.id ∉ rest.map (·.id) := (List.nodup_cons.mp (by simpa using hnd)).1
    have hrest : (rest.map (·.id)).Nodup := (List.nodup_cons.mp (by simpa using hnd)).2
    rcases List.mem_cons.mp hc with rfl | hc
    · rw [List.foldl_cons,
        bm_fold_get_other inv rest c.id
          (fun e he hce => hdid (hce ▸ List.mem_map_of_mem _ he))]
      unfold bmStep
      exact dictGet?_insert_self _ _ _
    · rw [List.foldl_cons]
      exact ih _ c hc hrest

lemma buildMatches_get (inv : List Item) (crits : List Crit) (c : Crit)
    (hc : c ∈ crits) (hnd : (crits.map (·.id)).Nodup) :
    matchesOf (buildMatches inv crits) c.id =
      (inv.filter fun item =>
        check_inventory_matches_criteria item c).map (·.id) := by
  unfold matchesOf buildMatches
  rw [bm_fold_get_mem inv crits [] c hc hnd]
  rfl

lemma allocationStatusCore_criteria_status_eq (crits : List Crit)
    (inv : List Item) (hne : crits ≠ []) :
    (allocationStatusCore crits inv).criteria_status =
      some ((crits.foldl
        (pass2Step (buildMatches (unflagged inv) crits) (idToSerial (unflagged inv)))
        { allocation_success := true, allocated := ∅, allocated_serials := ∅,
          cs := (crits.foldl (pass1Step (buildMatches (unflagged inv) crits))
            { cs := [], ts := [] }).cs,
          ts := (crits.foldl (pass1Step (buildMatches (unflagged inv) crits))
            { cs := [], ts := [] }).ts }).cs) := by
  unfold allocationStatusCore
  rw [if_neg (by simp [hne])]

lemma claimsCore_claims_eq (inv : List Item) (crits : List Crit)
    (sc : SearchCriteria) (hne : crits ≠ [])
    (htot : ¬ (sortInventory (inv.filter (sqlWhere sc))).length = 0) :
    (claimsCore inv crits sc).criteria_claims =
      (crits.foldl (claimsStep (sortInventory (inv.filter (sqlWhere sc))))
        { allocated_ids := ∅, item_claims := [], criteria_claims := [] }).criteria_claims := by
  unfold claimsCore
  rw [if_neg htot, if_neg (by simp [hne])]

lemma claimsCore_claims_nil (inv : List Item) (crits : List Crit)
    (sc : SearchCriteria) (htot : (sortInventory (inv.filter (sqlWhere sc))).length = 0) :
    (claimsCore inv crits sc).criteria_claims = [] := by
  unfold claimsCore
  rw [if_pos htot]

/-- C1.  FIFO priority invariant.  For two active sell criteria with A
created before B (list order = `created_at` order), B's demand lying
within A's matching pool, and the overlapping pool smaller than the
combined requirement: in `get_criteria_allocation_status` A's status is
never `conflict` while B's is `sufficient` (A `conflict` forces B
`conflict`), and in `get_available_after_criteria_claims` if the
simulation did not fully satisfy A up to its required quantity then B
claims nothing at all — every unit of the pool goes to A first. -/
theorem c1_fifo_priority (inventory : List Item) (sc : SearchCriteria)
    (A B : Crit) (l1 l2 l3 : List Crit)
    (hnd : (((l1 ++ A :: (l2 ++ B :: l3)).map (·.id)).Nodup))
    (hqA : 1 ≤ A.quantity_required) (hqB : 1 ≤ B.quantity_required)
    (hsub : ∀ it : Item, check_inventory_matches_criteria it B = true →
      check_inventory_matches_criteria it A = true)
    (hoverlap : (((matchesOf (buildMatches (unflagged inventory)
          (l1 ++ A :: (l2 ++ B :: l3))) A.id).toFinset ∩
        (matchesOf (buildMatches (unflagged inventory)
          (l1 ++ A :: (l2 ++ B :: l3))) B.id).toFinset).card : Int) <
      A.quantity_required + B.quantity_required) :
    (critStatusOf (allocationStatusCore (l1 ++ A :: (l2 ++ B :: l3)) inventory)
        A.id = some "conflict" →
      critStatusOf (allocationStatusCore (l1 ++ A :: (l2 ++ B :: l3)) inventory)
        B.id = some "conflict") ∧
    ((∀ e ∈ (claimsCore inventory (l1 ++ A :: (l2 ++ B :: l3)) sc).criteria_claims,
        ¬(e.criteria_id = A.id ∧ e.quantity_claimed = A.quantity_required)) →
      ∀ e ∈ (claimsCore inventory (l1 ++ A :: (l2 ++ B :: l3)) sc).criteria_claims,
        e.criteria_id ≠ B.id) := by
  have hnd' := hnd
  have hmap : ((l1 ++ A :: (l2 ++ B :: l3)).map (·.id)) =
      l1.map (·.id) ++ A.id :: (l2.map (·.id) ++ B.id :: l3.map (·.id)) := by
    simp
  rw [hmap] at hnd'
  rw [List.nodup_append] at hnd'
  obtain ⟨-, h2, hdisj1⟩ := hnd'
  rw [List.nodup_cons] at h2
  obtain ⟨hAnotin, h3⟩ := h2
  rw [List.nodup_append] at h3
  obtain ⟨-, h5, hdisj2⟩ := h3
  rw [List.nodup_cons] at h5
  obtain ⟨hBnotin3, -⟩ := h5
  simp only [List.mem_append, List.mem_cons, not_or] at hAnotin
  obtain ⟨hA2', hAB, hA3'⟩ := hAnotin
  have hA1 : ∀ c ∈ l1, A.id ≠ c.id := fun c hc he =>
    hdisj1 (he ▸ List.mem_map_of_mem _ hc) (List.mem_cons_self _ _)
  have hA2 : ∀ c ∈ l2, A.id ≠ c.id := fun c hc he =>
    hA2' (he ▸ List.mem_map_of_mem _ hc)
  have hA3 : ∀ c ∈ l3, A.id ≠ c.id := fun c hc he =>
    hA3' (he ▸ List.mem_map_of_mem _ hc)
  have hB1 : ∀ c ∈ l1, B.id ≠ c.id := fun c hc he =>
    hdisj1 (he ▸ List.mem_map_of_mem _ hc)
      (List.mem_cons_of_mem _ (List.mem_append_right _ (List.mem_cons_self _ _)))
  have hB2 : ∀ c ∈ l2, B.id ≠ c.id := fun c hc he =>
    hdisj2 (he ▸ List.mem_map_of_mem _ hc) (List.mem_cons_self _ _)
  have hB3 : ∀ c ∈ l3, B.id ≠ c.id := fun c hc he =>
    hBnotin3 (he ▸ List.mem_map_of_mem _ hc)
  constructor
  · intro hA
    have hcs := allocationStatusCore_criteria_status_eq
      (l1 ++ A :: (l2 ++ B :: l3)) inventory (by simp)
    unfold critStatusOf at hA ⊢
    rw [hcs] at hA ⊢
    simp only [Option.getD_some] at hA ⊢
    refine alloc_priority _ _ A B l1 l2 l3 _ ?_ ?_ hA1 hA2 hA3 hAB hB3 hqB ?_ hA
    · exact pass1_fold_noConflict _ _ _ (by intro p hp; cases hp)
    · exact pass1_fold_keys _ _ _ B (by simp)
    · intro x hx
      rw [buildMatches_get _ _ B (by simp) hnd] at hx
      rw [buildMatches_get _ _ A (by simp) hnd]
      rcases List.mem_map.mp hx with ⟨item, hitem, rfl⟩
      exact List.mem_map_of_mem _ (List.mem_filter.mpr
        ⟨List.mem_of_mem_filter hitem, hsub item (List.mem_filter.mp hitem).2⟩)
  · intro hnotfull e he
    by_cases htot : (sortInventory (inventory.filter (sqlWhere sc))).length = 0
    · rw [claimsCore_claims_nil _ _ _ htot] at he
      cases he
    · rw [claimsCore_claims_eq _ _ _ (by simp) htot] at he hnotfull
      exact claims_priority _ A B l1 l2 l3
        (fun c hc => (hB1 c hc).symm) (Ne.symm hAB).symm
        (fun c hc => (hB2 c hc).symm) (fun c hc => (hB3 c hc).symm)
        hqA hqB hsub hnotfull e he

/-- First concrete unit for the C1 witness. -/
def c1ItemA : Item := { blankItem with id := 1, registry := "Verra", serial := "S1" }

/-- Second concrete unit for the C1 witness. -/
def c1ItemB : Item := { blankItem with id := 2, registry := "Verra", serial := "S2" }

/-- Concrete inventory for the C1 witness: two free Verra units. -/
def c1Inv : List Item := [c1ItemA, c1ItemB]

/-- Earlier-created criteria for the C1 witness: wants 3 Verra units. -/
def c1A : Crit :=
  { blankCrit with id := 1, trade_id := "T1", quantity_required := 3, registry := "Verra" }

/-- Later-created criteria for the C1 witness: wants 1 Verra unit. -/
def c1B : Crit :=
  { blankCrit with id := 2, trade_id := "T2", quantity_required := 1, registry := "Verra" }

/-- C1 witness: the FIFO priority theorem instantiated on a pool of two
Verra units shared by criteria requiring 3 and 1. -/
theorem c1_fifo_priority_witness :
    (critStatusOf (allocationStatusCore ([] ++ c1A :: ([] ++ c1B :: [])) c1Inv) c1A.id
        = some "conflict" →
      critStatusOf (allocationStatusCore ([] ++ c1A :: ([] ++ c1B :: [])) c1Inv) c1B.id
        = some "conflict") ∧
    ((∀ e ∈ (claimsCore c1Inv ([] ++ c1A :: ([] ++ c1B :: [])) blankSearch).criteria_claims,
        ¬(e.criteria_id = c1A.id ∧ e.quantity_claimed = c1A.quantity_required)) →
      ∀ e ∈ (claimsCore c1Inv ([] ++ c1A :: ([] ++ c1B :: [])) blankSearch).criteria_claims,
        e.criteria_id ≠ c1B.id) :=
  c1_fifo_priority c1Inv blankSearch c1A c1B [] [] []
    (by decide) (by decide) (by decide)
    (fun it hb => hb)
    (by decide)
